import Mathlib

/-!
A shallow embedding of the `vehicle-x-zone` simulation core
(`environ/components.py` and `environ/scenario.py`).

Numeric values are embedded as exact rationals (`ℚ`): Python floats are
rationals, and all arithmetic in the source is field arithmetic.  The only
irrational quantity, the Euclidean norm used for distances, is embedded as a
real number (`Vector3.magnitude` in the missing `environ/utils.py` is the
Euclidean norm per the spec, §3).  Random draws (the Gaussian rotation angles
of `spinner`) are not reproduced: every function that consumes a freshly
rotated direction takes that post-rotation direction as an explicit argument,
so theorems quantify over all possible draws.
-/

/-- Modelled from the spec: `Vector3` lives in `environ/utils.py`, which is not
among the provided sources.  Per spec §3 it is an immutable 3D vector with
componentwise add/subtract, scalar multiply, Euclidean magnitude, and a
component tuple `t`. -/
structure Vec3 where
  x : ℚ
  y : ℚ
  z : ℚ
  deriving DecidableEq, Repr

/-- Modelled from the spec: componentwise addition. -/
def Vec3.add (a b : Vec3) : Vec3 := ⟨a.x + b.x, a.y + b.y, a.z + b.z⟩

/-- Modelled from the spec: componentwise difference. -/
def Vec3.sub (a b : Vec3) : Vec3 := ⟨a.x - b.x, a.y - b.y, a.z - b.z⟩

/-- Modelled from the spec: scalar multiple. -/
def Vec3.smul (a : Vec3) (c : ℚ) : Vec3 := ⟨a.x * c, a.y * c, a.z * c⟩

instance : Add Vec3 := ⟨Vec3.add⟩
instance : Sub Vec3 := ⟨Vec3.sub⟩
instance : HMul Vec3 ℚ Vec3 := ⟨Vec3.smul⟩

@[simp] theorem Vec3.add_mk (a b c d e f : ℚ) :
    (⟨a, b, c⟩ + ⟨d, e, f⟩ : Vec3) = ⟨a + d, b + e, c + f⟩ := rfl

@[simp] theorem Vec3.sub_mk (a b c d e f : ℚ) :
    (⟨a, b, c⟩ - ⟨d, e, f⟩ : Vec3) = ⟨a - d, b - e, c - f⟩ := rfl

@[simp] theorem Vec3.smul_mk (a b c q : ℚ) :
    (⟨a, b, c⟩ : Vec3) * q = (⟨a * q, b * q, c * q⟩ : Vec3) := rfl

/-- Modelled from the spec: the component tuple `v.t` (used with `*v.t` in the
observation builders); embedded as the 3-element list of components. -/
def Vec3.t (v : Vec3) : List ℚ := [v.x, v.y, v.z]

@[simp] theorem Vec3.t_mk (a b c : ℚ) : Vec3.t ⟨a, b, c⟩ = [a, b, c] := rfl

/-- Modelled from the spec: Euclidean norm (`magnitude`). -/
noncomputable def Vec3.magnitude (v : Vec3) : ℝ :=
  Real.sqrt ((v.x : ℝ) ^ 2 + (v.y : ℝ) ^ 2 + (v.z : ℝ) ^ 2)

/-! ## Zone (`environ/components.py`, class `Zone`) -/

/-- One of the six per-axis bound/direction ratios computed inside
`Zone.constraint`.  With `np.errstate(divide='ignore')` the IEEE-754 float
division `b / 0.0` produces `+inf` (for `b > 0`), `-inf` (for `b < 0`) or
`nan` (for `b = 0`) instead of raising; a nonzero divisor gives the exact
finite quotient.  (Signed zero divisors are not modelled; a direction
component that is `-0.0` in floats is the rational `0`.) -/
inductive FCand where
  | fin (q : ℚ)
  | pinf
  | ninf
  | nan
  deriving DecidableEq, Repr

/-- Float division as it appears in `Zone.constraint` (see `FCand`). -/
def fdiv (a b : ℚ) : FCand :=
  if b = 0 then (if 0 < a then .pinf else if a < 0 then .ninf else .nan)
  else .fin (a / b)

/-- A kept candidate of `Zone.constraint` after the `i >= 0` filter: the
comparison is true for `+inf` and for non-negative finite values, and false
for `-inf` and `nan`. -/
inductive Constr where
  | fin (q : ℚ)
  | pinf
  deriving DecidableEq, Repr

/-- The `i >= 0` filter of `Zone.constraint`, returning `none` for a
discarded candidate. -/
def keepCand : FCand → Option Constr
  | .fin q => if 0 ≤ q then some (.fin q) else none
  | .pinf => some .pinf
  | .ninf => none
  | .nan => none

/-- Binary minimum on kept candidates (`+inf` is larger than every finite
value), as used by Python's `min`. -/
def Constr.minc : Constr → Constr → Constr
  | .pinf, c => c
  | .fin q, .pinf => .fin q
  | .fin q, .fin r => .fin (min q r)

/-- Python's `min` over a list: raises (here: `none`) on the empty list. -/
def listMin : List Constr → Option Constr
  | [] => none
  | c :: cs => some (cs.foldl Constr.minc c)

/-- `environ/components.py`, `Zone.__init__` stores three bound pairs; the
constructor asserts all six bounds non-negative, which theorems take as a
hypothesis. -/
structure Zone where
  x : ℚ × ℚ
  y : ℚ × ℚ
  z : ℚ × ℚ
  deriving DecidableEq, Repr

/-- The six ratios of `Zone.constraint`, in source order. -/
def Zone.candidates (zn : Zone) (d : Vec3) : List FCand :=
  [ fdiv (-zn.x.1) d.x, fdiv zn.x.2 d.x,
    fdiv (-zn.y.1) d.y, fdiv zn.y.2 d.y,
    fdiv (-zn.z.1) d.z, fdiv zn.z.2 d.z ]

/-- `environ/components.py`, `Zone.constraint`: the minimum of the
non-negative bound/direction ratios; `none` models the `ValueError` Python's
`min` raises when every candidate is discarded. -/
def Zone.constraint (zn : Zone) (d : Vec3) : Option Constr :=
  listMin ((zn.candidates d).filterMap keepCand)

/-! ## Vehicle (`environ/components.py`, class `Vehicle`) -/

/-- `environ/components.py`, `Vehicle`: the private constructor fields and
the mutable kinematic state, flattened into one structure.  The constructor
asserts `0 < v`, `0 < a`, `0 < priority`, `0 < tick`; theorems take these as
hypotheses where needed. -/
structure Vehicle where
  v : ℚ
  a : ℚ
  priority : ℚ
  tick : ℚ
  odometer : ℚ
  direction : Vec3
  position : Vec3
  speed : ℚ
  offline : Bool
  deriving DecidableEq, Repr

/-- `Vehicle.boundary` property. -/
def Vehicle.boundary (veh : Vehicle) : ℚ := veh.v * veh.tick

/-- `environ/components.py`, `Vehicle.move`.  The freshly rotated direction
(the source draws three Gaussian angles and applies `spinner`) is passed in
as `newDir`.  `np.clip(x, lo, hi)` is `min (max x lo) hi`.  When the zone
constraint is `+inf`, the raw acceleration `2/tick² · (inf − vi·tick)` is
`+inf` (the slope `2/tick²` is positive) and clips to the upper bound `a`.
Returns `none` when `Zone.constraint` raises. -/
def Vehicle.move (veh0 : Vehicle) (zn : Zone) (newDir : Vec3) : Option (Vehicle × ℚ) :=
  let veh := { veh0 with direction := newDir }
  match zn.constraint veh.direction with
  | none => none
  | some c =>
    let vi := veh.speed
    let lo := -(min (vi / veh.tick) veh.a)
    let aEff : ℚ :=
      match c with
      | .pinf => veh.a
      | .fin q => min (max (2 / veh.tick ^ 2 * (q - vi * veh.tick)) lo) veh.a
    if 0 < aEff ∧ |veh.v - vi| / aEff < veh.tick then
      let t := |veh.v - vi| / aEff
      let moved := vi * t + 1 / 2 * aEff * t ^ 2 + veh.v * (veh.tick - t)
      some ({ veh with
                odometer := veh.odometer + moved,
                position := veh.position + veh.direction * moved,
                speed := veh.v }, moved)
    else
      let moved := vi * veh.tick + 1 / 2 * aEff * veh.tick ^ 2
      some ({ veh with
                odometer := veh.odometer + moved,
                position := veh.position + veh.direction * moved,
                speed := max (vi + aEff * veh.tick) 0 }, moved)

/-! ## Human (`environ/components.py`, class `Human`) -/

/-- `environ/components.py`, `Human`. -/
structure Human where
  v : ℚ
  tick : ℚ
  position : Vec3
  direction : Vec3
  deriving DecidableEq, Repr

/-- `environ/components.py`, `Human.move`: direction is replaced by the
freshly rotated one (passed in as `newDir`), then
`position += direction * tick * v`. -/
def Human.move (h : Human) (newDir : Vec3) : Human :=
  { h with direction := newDir, position := h.position + newDir * (h.tick * h.v) }

/-! ## Scenario (`environ/scenario.py`) -/

/-- `environ/scenario.py`, `Scenario.__init__` (tick is 0.1 there; kept as a
field). -/
structure Scenario where
  vehicles : List Vehicle
  humans : List Human
  tick : ℚ
  elapsed : ℕ
  deriving Repr

/-- One tuple yielded by `Scenario.step`: observation, reward, done. -/
abbrev Yld := List ℚ × ℝ × Bool

/-- The per-vehicle head of an observation: `[*direction.t, speed]`. -/
def ownBlock (veh : Vehicle) : List ℚ := veh.direction.t ++ [veh.speed]

/-- The 8 values appended per other vehicle: 8 zeros when that vehicle is
offline, otherwise `[*displacement.t, *direction.t, speed, priority]` with
`displacement = other.position - self.position`. -/
def otherBlock (self other : Vehicle) : List ℚ :=
  if other.offline then List.replicate 8 0
  else (other.position - self.position).t ++ other.direction.t ++ [other.speed, other.priority]

/-- The 4 values appended per human: `[*displacement.t, feared]` where
`feared` is the boolean `displacement.magnitude < 3 and self.speed > 1`,
encoded 0/1 in the float list. -/
noncomputable def humanBlock (self : Vehicle) (h : Human) : List ℚ :=
  (h.position - self.position).t ++
    [if (h.position - self.position).magnitude < 3 ∧ 1 < self.speed then (1 : ℚ) else 0]

/-- The mutable locals of one vehicle's pass through phase 2 of
`Scenario.step`: the observation being extended, the adjusted reward, the
`crashed` and `warning` flags, and whether this vehicle's index has been
appended to the `offline` list (appending twice is the same as once, so a
boolean suffices). -/
structure ScanState where
  obs : List ℚ
  reward : ℝ
  crashed : Bool
  warning : ℚ
  mark : Bool

/-- The body of the `for other in self.vehicles[:i] + self.vehicles[i+1:]`
loop in `Scenario.step`: always extend the observation; skip the proximity
checks when the other vehicle is offline or `warning or crashed` already
holds (Python float truthiness: `warning ≠ 0`). -/
noncomputable def scanOther (self : Vehicle) (st : ScanState) (other : Vehicle) : ScanState :=
  let st' := { st with obs := st.obs ++ otherBlock self other }
  if other.offline then st'
  else if st.warning ≠ 0 ∨ st.crashed then st'
  else
    let distance := (other.position - self.position).magnitude
    if distance < 1 then { st' with crashed := true, mark := true }
    else if distance < 3 ∧ self.priority < other.priority ∧ 1 < self.speed then
      { st' with warning := self.speed / self.v }
    else if distance < 10 ∧ 5 < self.speed ∧ 5 < other.speed then
      { st' with reward := st'.reward * (0.9 + distance * 0.01) }
    else st'

/-- The body of the `for human in self.humans` loop in `Scenario.step`. -/
noncomputable def scanHuman (self : Vehicle) (st : ScanState) (h : Human) : ScanState :=
  let st' := { st with obs := st.obs ++ humanBlock self h }
  if st.warning ≠ 0 ∨ st.crashed then st'
  else
    let distance := (h.position - self.position).magnitude
    if distance < 1 then { st' with crashed := true, mark := true }
    else if distance < 3 ∧ 1 < self.speed then
      { st' with warning := self.speed / self.v }
    else if distance < 10 ∧ 5 < self.speed then
      { st' with reward := st'.reward * (0.9 + distance * 0.01) }
    else st'

/-- `self.vehicles[:i] + self.vehicles[i+1:]`. -/
def othersOf (vs : List Vehicle) (i : ℕ) : List Vehicle := vs.take i ++ vs.drop (i + 1)

/-- The locals of one non-offline vehicle's phase-2 pass just before the
scans: observation initialized to the own block, `crashed`/`warning` clear,
and the `odometer >= 20` finish check already applied (it sets the reward to
`5.0 * priority`, marks the index for the late offline update, and is the
only writer of the `done` local). -/
noncomputable def initScan (veh : Vehicle) (baseReward : ℚ) : ScanState :=
  { obs := ownBlock veh
    reward := if 20 ≤ veh.odometer then 5.0 * (veh.priority : ℝ) else (baseReward : ℝ)
    crashed := false
    warning := 0
    mark := decide (20 ≤ veh.odometer) }

/-- The whole of one non-offline vehicle's phase-2 pass up to (but not
including) the final yield selection: the finish check, then the scan of the
other vehicles, then the scan of all humans. -/
noncomputable def scanAll (all : List Vehicle) (hs : List Human) (i : ℕ) (veh : Vehicle)
    (baseReward : ℚ) : ScanState :=
  hs.foldl (scanHuman veh) ((othersOf all i).foldl (scanOther veh) (initScan veh baseReward))

/-- One non-offline vehicle's phase-2 yield and whether its index was marked
for the late offline update.  The `done` local of the source is true exactly
when the finish check fired. -/
noncomputable def vehicleYield (all : List Vehicle) (hs : List Human) (i : ℕ) (veh : Vehicle)
    (baseReward : ℚ) : Yld × Bool :=
  let st := scanAll all hs i veh baseReward
  let done := decide (20 ≤ veh.odometer)
  (if st.crashed then (st.obs, (-5 : ℝ), true)
   else if st.warning ≠ 0 then (st.obs, (-(st.warning : ℝ) : ℝ), false)
   else (st.obs, st.reward, done), st.mark)

/-- Observation width: `4 + 8*(len(vehicles) - 1) + 4*len(humans)`. -/
def obsDim (nVehicles nHumans : ℕ) : ℕ := 4 + 8 * (nVehicles - 1) + 4 * nHumans

/-- Phase 1 of `Scenario.step`: `zip(self.vehicles, zones)` pairs each
vehicle with a zone until either list runs out; offline vehicles contribute
base reward `0.0` without moving, the rest move (consuming one fresh random
direction, indexed here by vehicle position) and contribute
`moved * priority`.  `none` models an exception escaping from `move`. -/
def phase1 (dirs : ℕ → Vec3) : ℕ → List Vehicle → List Zone → Option (List Vehicle × List ℚ)
  | _, vs, [] => some (vs, [])
  | _, [], _ => some ([], [])
  | i, veh :: vs, zn :: zs =>
    if veh.offline then
      (phase1 dirs (i + 1) vs zs).map (fun p => (veh :: p.1, 0 :: p.2))
    else
      match veh.move zn (dirs i) with
      | none => none
      | some (veh', moved) =>
        (phase1 dirs (i + 1) vs zs).map (fun p => (veh' :: p.1, moved * veh.priority :: p.2))

/-- Phase 2 of `Scenario.step`: one yield per vehicle, in order.  Every
branch begins by reading `rewards[i]`; when that index is out of range the
generator raises `IndexError` (third component `false`), producing no
further yields and no offline marks from later vehicles.  Offline vehicles
yield a zero observation of the full width with `done = True`. -/
noncomputable def phase2 (all : List Vehicle) (hs : List Human) (rewards : List ℚ) :
    ℕ → List Vehicle → List Yld × List ℕ × Bool
  | _, [] => ([], [], true)
  | i, veh :: rest =>
    match rewards.get? i with
    | none => ([], [], false)
    | some r =>
      if veh.offline then
        let res := phase2 all hs rewards (i + 1) rest
        ((List.replicate (obsDim all.length hs.length) (0 : ℚ), (r : ℝ), true) :: res.1,
          res.2.1, res.2.2)
      else
        let ym := vehicleYield all hs i veh r
        let res := phase2 all hs rewards (i + 1) rest
        (ym.1 :: res.1, (if ym.2 then i :: res.2.1 else res.2.1), res.2.2)

/-- Set `offline := true` on the vehicle at one index (out-of-range indices
never occur; they leave the list unchanged). -/
def setOffline : List Vehicle → ℕ → List Vehicle
  | [], _ => []
  | veh :: vs, 0 => { veh with offline := true } :: vs
  | veh :: vs, n + 1 => veh :: setOffline vs n

/-- Phase 3 of `Scenario.step`: the late update of the collected offline
indices. -/
def applyOffline (vs : List Vehicle) (idxs : List ℕ) : List Vehicle :=
  idxs.foldl setOffline vs

/-- The outcome of driving one `Scenario.step` generator to completion:
the yielded tuples in order, whether the generator finished normally
(`ok = false`: it raised `IndexError` after the listed yields, so the late
offline update never ran), and the scenario state afterwards. -/
structure StepOut where
  yields : List Yld
  ok : Bool
  final : Scenario

/-- `environ/scenario.py`, `Scenario.step`, driven to completion.  `zones`
is the zone generator's output; `vdirs j` (resp. `hdirs j`) is the freshly
rotated direction the `j`-th vehicle (resp. human) would draw.  `none`
models the exception when `Zone.constraint` fails inside a `move`. -/
noncomputable def Scenario.stepRun (s : Scenario) (zones : List Zone) (vdirs hdirs : ℕ → Vec3) :
    Option StepOut :=
  match phase1 vdirs 0 s.vehicles zones with
  | none => none
  | some p =>
    let hsMoved := s.humans.mapIdx (fun j h => h.move (hdirs j))
    let res := phase2 p.1 hsMoved p.2 0 p.1
    some { yields := res.1
           ok := res.2.2
           final := { vehicles := if res.2.2 then applyOffline p.1 res.2.1 else p.1
                      humans := hsMoved
                      tick := s.tick
                      elapsed := s.elapsed + 1 } }

/-! ## Concrete fixtures used by witnesses and counterexamples -/

/-- A unit box zone. -/
def znUnit : Zone := ⟨(1, 1), (1, 1), (1, 1)⟩

/-- The degenerate zone whose box is the single point at the origin; it
forces `constraint = 0` and hence no movement for a vehicle with speed 0. -/
def znZero : Zone := ⟨(0, 0), (0, 0), (0, 0)⟩

/-- The x-axis unit direction. -/
def dirX : Vec3 := ⟨1, 0, 0⟩

/-- A vehicle with the construction constants of `Scenario.reset`
(`v = 14`, `a = 7`, `tick = 0.1`), priority 1, at the origin, at rest. -/
def vehA : Vehicle := ⟨14, 7, 1, 1 / 10, 0, dirX, ⟨0, 0, 0⟩, 0, false⟩

/-- The raw acceleration of `Vehicle.move` for a finite zone constraint `c`:
`2 / tick² * (c - vi * tick)`. -/
def aRawOf (veh : Vehicle) (c : ℚ) : ℚ := 2 / veh.tick ^ 2 * (c - veh.speed * veh.tick)

/-- The clipped acceleration of `Vehicle.move` for a finite zone constraint:
`np.clip(a_raw, -min(vi/tick, a), a)`. -/
def aEffOf (veh : Vehicle) (c : ℚ) : ℚ :=
  min (max (aRawOf veh c) (-(min (veh.speed / veh.tick) veh.a))) veh.a

/-- The time `t = |v - vi| / a_eff` of `Vehicle.move` for a finite zone
constraint. -/
def tReach (veh : Vehicle) (c : ℚ) : ℚ := |veh.v - veh.speed| / aEffOf veh c

/-- The order on kept candidates under which `listMin` is minimal. -/
def Constr.cle : Constr → Constr → Prop
  | .pinf, .fin _ => False
  | .fin q, .fin r => q ≤ r
  | _, .pinf => True

/-- The fixture vehicle after already passing the finish threshold. -/
def vehB : Vehicle := { vehA with odometer := 25 }

/-- A fixture vehicle half a unit to the right of the origin. -/
def vehHalf : Vehicle := ⟨14, 7, 1, 1 / 10, 0, dirX, ⟨1 / 2, 0, 0⟩, 0, false⟩

/-- Two-vehicle scenario whose vehicles sit half a unit apart. -/
def sC8 : Scenario := ⟨[vehA, vehHalf], [], 1 / 10, 0⟩

/-- One-vehicle scenario (used with an exhausted zone source). -/
def sC5 : Scenario := ⟨[vehA], [], 1 / 10, 0⟩

/-- An already-offline vehicle at the origin. -/
def vehOff : Vehicle := ⟨14, 7, 1, 1 / 10, 0, dirX, ⟨0, 0, 0⟩, 0, true⟩

/-- A live vehicle far away from everything. -/
def vehFar : Vehicle := ⟨14, 7, 1, 1 / 10, 0, dirX, ⟨30, 0, 0⟩, 0, false⟩

/-- Scenario with an offline vehicle followed by a live one. -/
def sC6 : Scenario := ⟨[vehOff, vehFar], [], 1 / 10, 0⟩

/-- A pedestrian that ends the tick five units to the right of the origin. -/
def humanA : Human := ⟨1, 1 / 10, ⟨5, 0, -1 / 10⟩, ⟨0, 0, 0⟩⟩

/-- One vehicle and one human. -/
def sC4 : Scenario := ⟨[vehA], [humanA], 1 / 10, 0⟩

/-- A constant z-axis direction source for humans. -/
def dZ : ℕ → Vec3 := fun _ => ⟨0, 0, 1⟩

/-- A constant x-axis direction source. -/
def dAll : ℕ → Vec3 := fun _ => dirX

/-- A vehicle past the finish threshold, at speed 2, whose zone constraint
(`znC10`) exactly matches `vi·tick`, so it cruises at constant speed. -/
def vehC10a : Vehicle := ⟨14, 7, 1, 1 / 10, 25, dirX, ⟨0, 0, 0⟩, 2, false⟩

/-- A resting higher-priority vehicle two units to the right of where
`vehC10a` ends its tick. -/
def vehC10b : Vehicle := ⟨14, 7, 2, 1 / 10, 0, dirX, ⟨11 / 5, 0, 0⟩, 0, false⟩

/-- `vehC10a` after its tick: moved `0.2` at constant speed 2. -/
def vehC10a' : Vehicle := ⟨14, 7, 1, 1 / 10, 126 / 5, dirX, ⟨1 / 5, 0, 0⟩, 2, false⟩

/-- The box whose x-face sits exactly `v_i·tick = 0.2` ahead. -/
def znC10 : Zone := ⟨(1 / 5, 1 / 5), (1 / 5, 1 / 5), (1 / 5, 1 / 5)⟩

/-- Scenario for the warning-while-finished tick. -/
def sC10 : Scenario := ⟨[vehC10a, vehC10b], [], 1 / 10, 0⟩

/-- A below-threshold-odometer vehicle at `(0.2, 0, 0)` with speed 2. -/
def vehW : Vehicle := ⟨14, 7, 1, 1 / 10, 0, dirX, ⟨1 / 5, 0, 0⟩, 2, false⟩

/-- A vehicle only half a unit from `vehW` (collision distance). -/
def vehClose : Vehicle := ⟨14, 7, 1, 1 / 10, 0, dirX, ⟨7 / 10, 0, 0⟩, 0, false⟩

/-! # Theorems -/

/-! ## Order helpers for `Constr` and `listMin` -/

theorem Constr.cle_refl (a : Constr) : a.cle a := by
  cases a
  · exact le_refl _
  · trivial

theorem Constr.cle_trans {a b c : Constr} (h1 : a.cle b) (h2 : b.cle c) : a.cle c := by
  cases a <;> cases b <;> cases c <;> simp_all [Constr.cle] <;> linarith

theorem Constr.minc_cle_left (a b : Constr) : (a.minc b).cle a := by
  cases a <;> cases b <;> simp [Constr.minc, Constr.cle, min_le_left]

theorem Constr.minc_cle_right (a b : Constr) : (a.minc b).cle b := by
  cases a <;> cases b <;> simp [Constr.minc, Constr.cle, min_le_right, Constr.cle_refl]

theorem foldl_minc_cle (cs : List Constr) :
    ∀ c x : Constr, x ∈ c :: cs → (cs.foldl Constr.minc c).cle x := by
  induction cs with
  | nil =>
    intro c x hx
    simp only [List.mem_cons, List.not_mem_nil, or_false] at hx
    subst hx
    exact Constr.cle_refl _
  | cons c' cs ih =>
    intro c x hx
    rcases List.mem_cons.1 hx with rfl | hx'
    · exact Constr.cle_trans (ih (x.minc c') _ (List.mem_cons_self _ _))
        (Constr.minc_cle_left x c')
    · rcases List.mem_cons.1 hx' with rfl | hx''
      · exact Constr.cle_trans (ih (c.minc x) _ (List.mem_cons_self _ _))
          (Constr.minc_cle_right c x)
      · exact ih (c.minc c') x (List.mem_cons.2 (Or.inr hx''))

theorem minc_or (a b : Constr) : a.minc b = a ∨ a.minc b = b := by
  cases a with
  | pinf => right; cases b <;> rfl
  | fin q =>
    cases b with
    | pinf => left; rfl
    | fin r =>
      rcases le_total q r with h | h
      · left; simp [Constr.minc, min_eq_left h]
      · right; simp [Constr.minc, min_eq_right h]

theorem foldl_minc_mem (cs : List Constr) : ∀ c : Constr, cs.foldl Constr.minc c ∈ c :: cs := by
  induction cs with
  | nil => intro c; simp
  | cons c' cs ih =>
    intro c
    have hfold : (c' :: cs).foldl Constr.minc c = cs.foldl Constr.minc (c.minc c') := rfl
    rcases List.mem_cons.1 (ih (c.minc c')) with h' | h'
    · rcases minc_or c c' with hm | hm
      · rw [hfold, h', hm]; exact List.mem_cons_self _ _
      · rw [hfold, h', hm]; exact List.mem_cons.2 (Or.inr (List.mem_cons_self _ _))
    · rw [hfold]; exact List.mem_cons.2 (Or.inr (List.mem_cons.2 (Or.inr h')))

theorem listMin_mem {l : List Constr} {m : Constr} (h : listMin l = some m) : m ∈ l := by
  cases l with
  | nil => simp [listMin] at h
  | cons c cs =>
    simp only [listMin, Option.some.injEq] at h
    exact h ▸ foldl_minc_mem cs c

theorem listMin_cle {l : List Constr} {m : Constr} (h : listMin l = some m) :
    ∀ x ∈ l, m.cle x := by
  cases l with
  | nil => simp [listMin] at h
  | cons c cs =>
    simp only [listMin, Option.some.injEq] at h
    exact fun x hx => h ▸ foldl_minc_cle cs c x hx

theorem listMin_isSome {l : List Constr} (h : l ≠ []) : ∃ m, listMin l = some m := by
  cases l with
  | nil => exact absurd rfl h
  | cons c cs => exact ⟨_, rfl⟩

/-- A kept candidate is either `+inf` or a non-negative finite ratio. -/
theorem keepCand_characterize {cand : FCand} {c : Constr} (h : keepCand cand = some c) :
    (∃ q, c = .fin q ∧ 0 ≤ q ∧ cand = .fin q) ∨ (c = .pinf ∧ cand = .pinf) := by
  cases cand with
  | fin q =>
    by_cases hq : 0 ≤ q
    · simp [keepCand, hq] at h
      exact Or.inl ⟨q, h.symm, hq, rfl⟩
    · simp [keepCand, hq] at h
  | pinf => simp [keepCand] at h; exact Or.inr ⟨h.symm, rfl⟩
  | ninf => simp [keepCand] at h
  | nan => simp [keepCand] at h


/-! ## Branch characterization of `Vehicle.move` -/

/-- When the zone constraint is the finite ratio `q`, `Vehicle.move` is the
two-branch expression with clipped acceleration `aEffOf veh q`. -/
theorem move_eq_fin (veh : Vehicle) (zn : Zone) (d : Vec3) (q : ℚ)
    (hc : zn.constraint d = some (.fin q)) :
    veh.move zn d =
      (if 0 < aEffOf veh q ∧ tReach veh q < veh.tick then
         let t := tReach veh q
         let moved := veh.speed * t + 1 / 2 * aEffOf veh q * t ^ 2 + veh.v * (veh.tick - t)
         some ({ veh with direction := d, odometer := veh.odometer + moved, position := veh.position + d * moved, speed := veh.v }, moved)
       else
         let moved := veh.speed * veh.tick + 1 / 2 * aEffOf veh q * veh.tick ^ 2
         some ({ veh with direction := d, odometer := veh.odometer + moved, position := veh.position + d * moved, speed := max (veh.speed + aEffOf veh q * veh.tick) 0 }, moved)) := by
  simp only [Vehicle.move, hc, aEffOf, aRawOf, tReach]

/-- When the zone constraint is `+inf`, the clipped acceleration is the
upper bound `veh.a`. -/
theorem move_eq_pinf (veh : Vehicle) (zn : Zone) (d : Vec3)
    (hc : zn.constraint d = some .pinf) :
    veh.move zn d =
      (if 0 < veh.a ∧ |veh.v - veh.speed| / veh.a < veh.tick then
         let t := |veh.v - veh.speed| / veh.a
         let moved := veh.speed * t + 1 / 2 * veh.a * t ^ 2 + veh.v * (veh.tick - t)
         some ({ veh with direction := d, odometer := veh.odometer + moved, position := veh.position + d * moved, speed := veh.v }, moved)
       else
         let moved := veh.speed * veh.tick + 1 / 2 * veh.a * veh.tick ^ 2
         some ({ veh with direction := d, odometer := veh.odometer + moved, position := veh.position + d * moved, speed := max (veh.speed + veh.a * veh.tick) 0 }, moved)) := by
  simp only [Vehicle.move, hc]

/-- Both branches of `Vehicle.move` keep the final speed non-negative and
add a non-negative distance to the odometer, for any clipped acceleration
no smaller than `-vi/tick`. -/
theorem move_branch_invariants (veh : Vehicle) (d : Vec3) (veh' : Vehicle) (moved aEff : ℚ)
    (hvi : 0 ≤ veh.speed) (hv : 0 < veh.v) (ht : 0 < veh.tick)
    (hlo : -(veh.speed / veh.tick) ≤ aEff)
    (h : (if 0 < aEff ∧ |veh.v - veh.speed| / aEff < veh.tick then
            let t := |veh.v - veh.speed| / aEff
            let mv := veh.speed * t + 1 / 2 * aEff * t ^ 2 + veh.v * (veh.tick - t)
            some ({ veh with direction := d, odometer := veh.odometer + mv, position := veh.position + d * mv, speed := veh.v }, mv)
          else
            let mv := veh.speed * veh.tick + 1 / 2 * aEff * veh.tick ^ 2
            some ({ veh with direction := d, odometer := veh.odometer + mv, position := veh.position + d * mv, speed := max (veh.speed + aEff * veh.tick) 0 }, mv))
          = some (veh', moved)) :
    0 ≤ veh'.speed ∧ 0 ≤ moved ∧ veh'.odometer = veh.odometer + moved ∧
      veh.odometer ≤ veh'.odometer := by
  by_cases hcond : 0 < aEff ∧ |veh.v - veh.speed| / aEff < veh.tick
  · rw [if_pos hcond] at h
    simp only [Option.some.injEq, Prod.mk.injEq] at h
    obtain ⟨hveh', hmoved⟩ := h
    subst hmoved
    subst hveh'
    have ht0 : 0 ≤ |veh.v - veh.speed| / aEff := div_nonneg (abs_nonneg _) hcond.1.le
    have h1 : 0 ≤ veh.speed * (|veh.v - veh.speed| / aEff) := mul_nonneg hvi ht0
    have h2 : 0 ≤ 1 / 2 * aEff * (|veh.v - veh.speed| / aEff) ^ 2 := by
      have := hcond.1
      positivity
    have h3 : 0 ≤ veh.v * (veh.tick - |veh.v - veh.speed| / aEff) :=
      mul_nonneg hv.le (by linarith [hcond.2])
    refine ⟨hv.le, by linarith, rfl, by simp only [Vehicle.odometer]; linarith⟩
  · rw [if_neg hcond] at h
    simp only [Option.some.injEq, Prod.mk.injEq] at h
    obtain ⟨hveh', hmoved⟩ := h
    subst hmoved
    subst hveh'
    have hkey : veh.speed / veh.tick * veh.tick = veh.speed := div_mul_cancel₀ _ ht.ne'
    have hmv0 : 0 ≤ veh.speed * veh.tick + 1 / 2 * aEff * veh.tick ^ 2 := by
      nlinarith [sq_nonneg veh.tick, mul_pos ht ht]
    refine ⟨le_max_right _ _, hmv0, rfl, by simp only [Vehicle.odometer]; linarith⟩

/-! ## C1: the two-phase motion formula of `Vehicle.move` -/

/-- C1: for every vehicle with current speed `vi ≥ 0` and every zone whose
constraint along the post-rotation direction is the finite value `c`,
`Vehicle.move` forms `a_raw = 2/tick² · (c − vi·tick)`, clips it to
`[-min(vi/tick, a), a]` giving `a_eff` (`aEffOf`), and then: if `a_eff > 0`
and `t = |v − vi| / a_eff < tick`, the returned distance is
`(vi·t + ½·a_eff·t²) + v·(tick − t)` and the final speed is exactly `v`;
otherwise the returned distance is `vi·tick + ½·a_eff·tick²` and the final
speed is `max(vi + a_eff·tick, 0)`. -/
theorem C1_move_two_phase (veh : Vehicle) (zn : Zone) (d : Vec3) (c : ℚ)
    (hvi : 0 ≤ veh.speed)
    (hc : zn.constraint d = some (.fin c)) :
    ∃ veh' moved, veh.move zn d = some (veh', moved) ∧
      (if 0 < aEffOf veh c ∧ tReach veh c < veh.tick then
         moved = (veh.speed * tReach veh c + 1 / 2 * aEffOf veh c * tReach veh c ^ 2)
             + veh.v * (veh.tick - tReach veh c) ∧
           veh'.speed = veh.v
       else
         moved = veh.speed * veh.tick + 1 / 2 * aEffOf veh c * veh.tick ^ 2 ∧
           veh'.speed = max (veh.speed + aEffOf veh c * veh.tick) 0) := by
  have hmv := move_eq_fin veh zn d c hc
  by_cases hcond : 0 < aEffOf veh c ∧ tReach veh c < veh.tick
  · rw [if_pos hcond] at hmv
    refine ⟨_, _, hmv, ?_⟩
    rw [if_pos hcond]
    exact ⟨rfl, rfl⟩
  · rw [if_neg hcond] at hmv
    refine ⟨_, _, hmv, ?_⟩
    rw [if_neg hcond]
    exact ⟨rfl, rfl⟩

/-- C1 witness: the fixture vehicle (`v = 14`, `a = 7`, `tick = 0.1`,
speed 0) in the unit box heading along the x-axis: the constraint is 1,
`a_raw = 200` clips to `a_eff = 7`, and `t = 2 ≥ tick` selects the
constant-acceleration branch. -/
theorem C1_witness :
    (0 : ℚ) ≤ vehA.speed ∧ znUnit.constraint dirX = some (.fin 1) ∧
    ∃ veh' moved, vehA.move znUnit dirX = some (veh', moved) ∧
      (if 0 < aEffOf vehA 1 ∧ tReach vehA 1 < vehA.tick then
         moved = (vehA.speed * tReach vehA 1 + 1 / 2 * aEffOf vehA 1 * tReach vehA 1 ^ 2)
             + vehA.v * (vehA.tick - tReach vehA 1) ∧
           veh'.speed = vehA.v
       else
         moved = vehA.speed * vehA.tick + 1 / 2 * aEffOf vehA 1 * vehA.tick ^ 2 ∧
           veh'.speed = max (vehA.speed + aEffOf vehA 1 * vehA.tick) 0) := by
  have hc : znUnit.constraint dirX = some (.fin 1) := by
    norm_num [znUnit, dirX, Zone.constraint, Zone.candidates, fdiv, keepCand, listMin,
      Constr.minc, List.filterMap]
  exact ⟨by norm_num [vehA], hc, C1_move_two_phase vehA znUnit dirX 1 (by norm_num [vehA]) hc⟩

/-! ## C3: `move` keeps speed non-negative and the odometer non-decreasing -/

/-- C3: for every vehicle state with speed ≥ 0 (and the constructor
invariants `0 < v`, `0 < a`, `0 < tick`) and every zone, a completed
`Vehicle.move` returns a non-negative distance, leaves the speed ≥ 0, and
adds the returned distance to the odometer, so the odometer never
decreases. -/
theorem C3_move_invariants (veh : Vehicle) (zn : Zone) (d : Vec3) (veh' : Vehicle) (moved : ℚ)
    (hvi : 0 ≤ veh.speed) (hv : 0 < veh.v) (ha : 0 < veh.a) (ht : 0 < veh.tick)
    (h : veh.move zn d = some (veh', moved)) :
    0 ≤ veh'.speed ∧ 0 ≤ moved ∧ veh'.odometer = veh.odometer + moved ∧
      veh.odometer ≤ veh'.odometer := by
  have hmin0 : 0 ≤ min (veh.speed / veh.tick) veh.a := le_min (div_nonneg hvi ht.le) ha.le
  rcases hm : zn.constraint d with _ | c
  · simp only [Vehicle.move, hm] at h
    exact Option.noConfusion h
  cases c with
  | fin q =>
    rw [move_eq_fin veh zn d q hm] at h
    simp only [tReach] at h
    refine move_branch_invariants veh d veh' moved (aEffOf veh q) hvi hv ht ?_ h
    have h1 : -(veh.speed / veh.tick) ≤ -(min (veh.speed / veh.tick) veh.a) :=
      neg_le_neg (min_le_left _ _)
    have h2 : -(min (veh.speed / veh.tick) veh.a) ≤ veh.a := by linarith
    exact h1.trans (le_min ((le_max_right _ _)) h2)
  | pinf =>
    rw [move_eq_pinf veh zn d hm] at h
    refine move_branch_invariants veh d veh' moved veh.a hvi hv ht ?_ h
    have : -(veh.speed / veh.tick) ≤ 0 := neg_nonpos.2 (div_nonneg hvi ht.le)
    linarith

/-- C3 witness: the fixture vehicle at rest in the degenerate point zone:
`move` completes, keeps the speed at 0 and moves distance 0. -/
theorem C3_witness :
    ∃ veh' moved, vehA.move znZero dirX = some (veh', moved) ∧
      (0 ≤ veh'.speed ∧ 0 ≤ moved ∧ veh'.odometer = vehA.odometer + moved ∧
        vehA.odometer ≤ veh'.odometer) := by
  have hmove : vehA.move znZero dirX =
      some (⟨14, 7, 1, 1 / 10, 0, ⟨1, 0, 0⟩, ⟨0, 0, 0⟩, 0, false⟩, 0) := by
    norm_num [vehA, znZero, dirX, Vehicle.move, Zone.constraint, Zone.candidates, fdiv,
      keepCand, listMin, Constr.minc, List.filterMap]
  exact ⟨_, _, hmove,
    C3_move_invariants vehA znZero dirX _ 0 (by norm_num [vehA]) (by norm_num [vehA])
      (by norm_num [vehA]) (by norm_num [vehA]) hmove⟩

/-! ## Structure of `Zone.constraint` -/

/-- A finite `fdiv` result forces a nonzero divisor and the exact quotient. -/
theorem fdiv_eq_fin {a b q : ℚ} (h : fdiv a b = .fin q) : b ≠ 0 ∧ q = a / b := by
  by_cases hb : b = 0
  · simp only [fdiv, hb, if_true, if_pos] at h
    split_ifs at h
  · simp only [fdiv, hb, if_false, ite_false, FCand.fin.injEq] at h
    exact ⟨hb, h.symm⟩

/-- A finite kept candidate of `Zone.constraint` is non-negative and appears
among the raw six ratios. -/
theorem kept_fin_spec {zn : Zone} {d : Vec3} {q : ℚ}
    (h : Constr.fin q ∈ (zn.candidates d).filterMap keepCand) :
    0 ≤ q ∧ FCand.fin q ∈ zn.candidates d := by
  obtain ⟨cand, hcand, hkeep⟩ := List.mem_filterMap.1 h
  rcases keepCand_characterize hkeep with ⟨r, hr, hr0, hcand'⟩ | ⟨hpinf, _⟩
  · obtain rfl : q = r := by injection hr
    exact ⟨hr0, hcand' ▸ hcand⟩
  · exact absurd hpinf (by simp)

/-- With non-negative bounds and a nonzero direction component, the
constraint is a finite non-negative ratio that is minimal among the kept
candidates. -/
theorem constraint_fin (zn : Zone) (d : Vec3)
    (hx1 : 0 ≤ zn.x.1) (hx2 : 0 ≤ zn.x.2) (hy1 : 0 ≤ zn.y.1) (hy2 : 0 ≤ zn.y.2)
    (hz1 : 0 ≤ zn.z.1) (hz2 : 0 ≤ zn.z.2)
    (hd : d.x ≠ 0 ∨ d.y ≠ 0 ∨ d.z ≠ 0) :
    ∃ q : ℚ, zn.constraint d = some (.fin q) ∧ 0 ≤ q ∧
      (∀ r, Constr.fin r ∈ (zn.candidates d).filterMap keepCand → q ≤ r) := by
  have hfin : ∃ r, Constr.fin r ∈ (zn.candidates d).filterMap keepCand := by
    have haxis : ∀ lo hi dc : ℚ, 0 ≤ lo → 0 ≤ hi → dc ≠ 0 →
        ∃ r, (keepCand (fdiv (-lo) dc) = some (.fin r) ∨ keepCand (fdiv hi dc) = some (.fin r)) := by
      intro lo hi dc hlo hhi hdc
      rcases hdc.lt_or_lt with hneg | hpos
      · refine ⟨-lo / dc, Or.inl ?_⟩
        have h0 : 0 ≤ -lo / dc := div_nonneg_of_nonpos (neg_nonpos.2 hlo) hneg.le
        simp [fdiv, hneg.ne, keepCand, h0]
      · refine ⟨hi / dc, Or.inr ?_⟩
        have h0 : 0 ≤ hi / dc := div_nonneg hhi hpos.le
        simp [fdiv, hpos.ne', keepCand, h0]
    rcases hd with hdx | hdy | hdz
    · obtain ⟨r, hr⟩ := haxis zn.x.1 zn.x.2 d.x hx1 hx2 hdx
      refine ⟨r, List.mem_filterMap.2 ?_⟩
      rcases hr with hr | hr
      · exact ⟨fdiv (-zn.x.1) d.x, by simp [Zone.candidates], hr⟩
      · exact ⟨fdiv zn.x.2 d.x, by simp [Zone.candidates], hr⟩
    · obtain ⟨r, hr⟩ := haxis zn.y.1 zn.y.2 d.y hy1 hy2 hdy
      refine ⟨r, List.mem_filterMap.2 ?_⟩
      rcases hr with hr | hr
      · exact ⟨fdiv (-zn.y.1) d.y, by simp [Zone.candidates], hr⟩
      · exact ⟨fdiv zn.y.2 d.y, by simp [Zone.candidates], hr⟩
    · obtain ⟨r, hr⟩ := haxis zn.z.1 zn.z.2 d.z hz1 hz2 hdz
      refine ⟨r, List.mem_filterMap.2 ?_⟩
      rcases hr with hr | hr
      · exact ⟨fdiv (-zn.z.1) d.z, by simp [Zone.candidates], hr⟩
      · exact ⟨fdiv zn.z.2 d.z, by simp [Zone.candidates], hr⟩
  obtain ⟨r0, hr0⟩ := hfin
  obtain ⟨m, hm⟩ := listMin_isSome (List.ne_nil_of_mem hr0)
  have hmle := listMin_cle hm _ hr0
  cases m with
  | pinf => exact absurd hmle (by simp [Constr.cle])
  | fin q =>
    refine ⟨q, hm, (kept_fin_spec (listMin_mem hm)).1, fun r hr => listMin_cle hm _ hr⟩

/-- The per-axis positioning bound for the minimal kept ratio. -/
theorem axis_within (q lo hi dc : ℚ) (hlo : 0 ≤ lo) (hhi : 0 ≤ hi) (hq : 0 ≤ q)
    (hub : 0 < dc → q ≤ hi / dc) (hlb : dc < 0 → q ≤ -lo / dc) :
    -lo ≤ q * dc ∧ q * dc ≤ hi := by
  rcases lt_trichotomy dc 0 with h | h | h
  · have hle := hlb h
    have hrdc : -lo / dc * dc = -lo := div_mul_cancel₀ _ h.ne
    constructor
    · nlinarith [mul_nonneg (sub_nonneg.2 hle) (neg_nonneg.2 h.le)]
    · nlinarith [mul_nonneg hq (neg_nonneg.2 h.le)]
  · subst h
    constructor
    · simpa using neg_nonpos.2 hlo
    · simpa using hhi
  · have hle := hub h
    constructor
    · nlinarith [mul_nonneg hq h.le]
    · exact (le_div_iff₀ h).1 hle

/-- A unit-magnitude vector has a nonzero component. -/
theorem comp_ne_of_mag_one {d : Vec3} (hd : d.magnitude = 1) :
    d.x ≠ 0 ∨ d.y ≠ 0 ∨ d.z ≠ 0 := by
  by_contra hall
  push_neg at hall
  obtain ⟨hx, hy, hz⟩ := hall
  rw [Vec3.magnitude, hx, hy, hz] at hd
  norm_num at hd

/-- The minimum kept ratio never exceeds any kept ratio `b / dc`. -/
theorem min_le_keep {zn : Zone} {d : Vec3} {q b dc : ℚ}
    (hmin : ∀ r, Constr.fin r ∈ (zn.candidates d).filterMap keepCand → q ≤ r)
    (hmem : fdiv b dc ∈ zn.candidates d) (hdc : dc ≠ 0) (hb : 0 ≤ b / dc) :
    q ≤ b / dc := by
  apply hmin
  exact List.mem_filterMap.2 ⟨fdiv b dc, hmem, by simp [fdiv, hdc, keepCand, hb]⟩

/-- A finite raw candidate pins the travelled point to one of the six
faces. -/
theorem face_of_candidate {zn : Zone} {d : Vec3} {q : ℚ}
    (h : FCand.fin q ∈ zn.candidates d) :
    q * d.x = -zn.x.1 ∨ q * d.x = zn.x.2 ∨ q * d.y = -zn.y.1 ∨ q * d.y = zn.y.2 ∨
      q * d.z = -zn.z.1 ∨ q * d.z = zn.z.2 := by
  simp only [Zone.candidates, List.mem_cons, List.not_mem_nil, or_false] at h
  rcases h with h | h | h | h | h | h
  · obtain ⟨hdc, hq⟩ := fdiv_eq_fin h.symm
    exact Or.inl (by rw [hq]; exact div_mul_cancel₀ _ hdc)
  · obtain ⟨hdc, hq⟩ := fdiv_eq_fin h.symm
    exact Or.inr (Or.inl (by rw [hq]; exact div_mul_cancel₀ _ hdc))
  · obtain ⟨hdc, hq⟩ := fdiv_eq_fin h.symm
    exact Or.inr (Or.inr (Or.inl (by rw [hq]; exact div_mul_cancel₀ _ hdc)))
  · obtain ⟨hdc, hq⟩ := fdiv_eq_fin h.symm
    exact Or.inr (Or.inr (Or.inr (Or.inl (by rw [hq]; exact div_mul_cancel₀ _ hdc))))
  · obtain ⟨hdc, hq⟩ := fdiv_eq_fin h.symm
    exact Or.inr (Or.inr (Or.inr (Or.inr (Or.inl (by rw [hq]; exact div_mul_cancel₀ _ hdc)))))
  · obtain ⟨hdc, hq⟩ := fdiv_eq_fin h.symm
    exact Or.inr (Or.inr (Or.inr (Or.inr (Or.inr (by rw [hq]; exact div_mul_cancel₀ _ hdc)))))

/-! ## C2: the constraint lands on the box surface -/

/-- C2: for every zone with all six bounds non-negative and every
unit-magnitude direction, `Zone.constraint` returns a finite value `q ≥ 0`,
and the point `origin + q · direction` lies on the surface of the box
`[-lo_x, hi_x] × [-lo_y, hi_y] × [-lo_z, hi_z]`: every coordinate is within
its interval and at least one coordinate sits exactly on a face. -/
theorem C2_constraint_surface (zn : Zone) (d : Vec3)
    (hx1 : 0 ≤ zn.x.1) (hx2 : 0 ≤ zn.x.2) (hy1 : 0 ≤ zn.y.1) (hy2 : 0 ≤ zn.y.2)
    (hz1 : 0 ≤ zn.z.1) (hz2 : 0 ≤ zn.z.2) (hd : d.magnitude = 1) :
    ∃ q : ℚ, zn.constraint d = some (.fin q) ∧ 0 ≤ q ∧
      (-zn.x.1 ≤ q * d.x ∧ q * d.x ≤ zn.x.2) ∧
      (-zn.y.1 ≤ q * d.y ∧ q * d.y ≤ zn.y.2) ∧
      (-zn.z.1 ≤ q * d.z ∧ q * d.z ≤ zn.z.2) ∧
      (q * d.x = -zn.x.1 ∨ q * d.x = zn.x.2 ∨ q * d.y = -zn.y.1 ∨ q * d.y = zn.y.2 ∨
        q * d.z = -zn.z.1 ∨ q * d.z = zn.z.2) := by
  obtain ⟨q, hq, hq0, hmin⟩ :=
    constraint_fin zn d hx1 hx2 hy1 hy2 hz1 hz2 (comp_ne_of_mag_one hd)
  have hkept : Constr.fin q ∈ (zn.candidates d).filterMap keepCand := by
    rw [Zone.constraint] at hq
    exact listMin_mem hq
  have hx := axis_within q zn.x.1 zn.x.2 d.x hx1 hx2 hq0
    (fun h => min_le_keep hmin (by simp [Zone.candidates]) h.ne' (div_nonneg hx2 h.le))
    (fun h => min_le_keep hmin (by simp [Zone.candidates]) h.ne
      (div_nonneg_of_nonpos (neg_nonpos.2 hx1) h.le))
  have hy := axis_within q zn.y.1 zn.y.2 d.y hy1 hy2 hq0
    (fun h => min_le_keep hmin (by simp [Zone.candidates]) h.ne' (div_nonneg hy2 h.le))
    (fun h => min_le_keep hmin (by simp [Zone.candidates]) h.ne
      (div_nonneg_of_nonpos (neg_nonpos.2 hy1) h.le))
  have hz := axis_within q zn.z.1 zn.z.2 d.z hz1 hz2 hq0
    (fun h => min_le_keep hmin (by simp [Zone.candidates]) h.ne' (div_nonneg hz2 h.le))
    (fun h => min_le_keep hmin (by simp [Zone.candidates]) h.ne
      (div_nonneg_of_nonpos (neg_nonpos.2 hz1) h.le))
  exact ⟨q, hq, hq0, hx, hy, hz, face_of_candidate (kept_fin_spec hkept).2⟩

/-- C2 witness: the unit box and the x-axis unit direction: constraint 1,
and the point `(1, 0, 0)` is on the `hi_x` face. -/
theorem C2_witness :
    ∃ q : ℚ, znUnit.constraint dirX = some (.fin q) ∧ 0 ≤ q ∧
      (-znUnit.x.1 ≤ q * dirX.x ∧ q * dirX.x ≤ znUnit.x.2) ∧
      (-znUnit.y.1 ≤ q * dirX.y ∧ q * dirX.y ≤ znUnit.y.2) ∧
      (-znUnit.z.1 ≤ q * dirX.z ∧ q * dirX.z ≤ znUnit.z.2) ∧
      (q * dirX.x = -znUnit.x.1 ∨ q * dirX.x = znUnit.x.2 ∨ q * dirX.y = -znUnit.y.1 ∨
        q * dirX.y = znUnit.y.2 ∨ q * dirX.z = -znUnit.z.1 ∨ q * dirX.z = znUnit.z.2) := by
  refine C2_constraint_surface znUnit dirX (by norm_num [znUnit]) (by norm_num [znUnit])
    (by norm_num [znUnit]) (by norm_num [znUnit]) (by norm_num [znUnit]) (by norm_num [znUnit]) ?_
  rw [dirX, Vec3.magnitude]
  norm_num

/-! ## C9: the constraint never errors for a nonzero direction -/

/-- C9: with non-negative bounds and any direction with a nonzero
component, `Zone.constraint` succeeds with a finite non-negative value; an
axis with a zero directional component only ever contributes a discarded or
`+inf` candidate (division by zero maps to an infinity, not an error); and
the computation fails precisely when the non-negative candidate list is
empty, which the preconditions rule out. -/
theorem C9_constraint_total (zn : Zone) (d : Vec3)
    (hx1 : 0 ≤ zn.x.1) (hx2 : 0 ≤ zn.x.2) (hy1 : 0 ≤ zn.y.1) (hy2 : 0 ≤ zn.y.2)
    (hz1 : 0 ≤ zn.z.1) (hz2 : 0 ≤ zn.z.2)
    (hd : d.x ≠ 0 ∨ d.y ≠ 0 ∨ d.z ≠ 0) :
    (∃ q : ℚ, zn.constraint d = some (.fin q) ∧ 0 ≤ q) ∧
      (∀ b : ℚ, keepCand (fdiv b 0) = none ∨ keepCand (fdiv b 0) = some .pinf) ∧
      (∀ (zn' : Zone) (d' : Vec3),
        zn'.constraint d' = none ↔ (zn'.candidates d').filterMap keepCand = []) := by
  refine ⟨?_, ?_, ?_⟩
  · obtain ⟨q, hq, hq0, _⟩ := constraint_fin zn d hx1 hx2 hy1 hy2 hz1 hz2 hd
    exact ⟨q, hq, hq0⟩
  · intro b
    rcases lt_trichotomy b 0 with h | h | h
    · left; simp [fdiv, keepCand, h, not_lt.2 h.le, h.ne]
    · subst h; left; simp [fdiv, keepCand]
    · right; simp [fdiv, keepCand, h]
  · intro zn' d'
    rw [Zone.constraint]
    cases (zn'.candidates d').filterMap keepCand with
    | nil => simp [listMin]
    | cons c cs => simp [listMin]

/-- C9 witness: a box with bounds `((1,2),(3,4),(5,6))` and direction
`(0,0,2)`: both x- and y-axis divisions hit zero (giving `-inf`/`+inf`
candidates, no error), and the result is the finite ratio `3`. -/
theorem C9_witness :
    (∃ q : ℚ, Zone.constraint ⟨(1, 2), (3, 4), (5, 6)⟩ ⟨0, 0, 2⟩ = some (.fin q) ∧ 0 ≤ q) ∧
      (∀ b : ℚ, keepCand (fdiv b 0) = none ∨ keepCand (fdiv b 0) = some .pinf) ∧
      (∀ (zn' : Zone) (d' : Vec3),
        zn'.constraint d' = none ↔ (zn'.candidates d').filterMap keepCand = []) := by
  exact C9_constraint_total ⟨(1, 2), (3, 4), (5, 6)⟩ ⟨0, 0, 2⟩ (by norm_num) (by norm_num)
    (by norm_num) (by norm_num) (by norm_num) (by norm_num) (by norm_num)

/-! ## Observation decomposition of the phase-2 scans -/

/-- One other-vehicle scan step always appends exactly that vehicle's
8-value block to the observation, whatever else it does. -/
theorem scanOther_obs (self : Vehicle) (st : ScanState) (other : Vehicle) :
    (scanOther self st other).obs = st.obs ++ otherBlock self other := by
  rw [scanOther]
  simp only []
  split_ifs <;> rfl

/-- One human scan step always appends exactly that human's 4-value block. -/
theorem scanHuman_obs (self : Vehicle) (st : ScanState) (h : Human) :
    (scanHuman self st h).obs = st.obs ++ humanBlock self h := by
  rw [scanHuman]
  simp only []
  split_ifs <;> rfl

/-- The other-vehicle loop appends the blocks of all scanned vehicles in
order. -/
theorem foldl_scanOther_obs (self : Vehicle) (others : List Vehicle) :
    ∀ st : ScanState,
      (others.foldl (scanOther self) st).obs = st.obs ++ others.flatMap (otherBlock self) := by
  induction others with
  | nil => intro st; simp
  | cons o os ih =>
    intro st
    rw [List.foldl_cons, ih, scanOther_obs]
    simp [List.append_assoc]

/-- The human loop appends the blocks of all humans in order. -/
theorem foldl_scanHuman_obs (self : Vehicle) (hs : List Human) :
    ∀ st : ScanState,
      (hs.foldl (scanHuman self) st).obs = st.obs ++ hs.flatMap (humanBlock self) := by
  induction hs with
  | nil => intro st; simp
  | cons h hs ih =>
    intro st
    rw [List.foldl_cons, ih, scanHuman_obs]
    simp [List.append_assoc]

/-- The complete observation of a non-offline vehicle: own block, then one
8-value block per other vehicle in list order, then one 4-value block per
human. -/
theorem scanAll_obs (all : List Vehicle) (hs : List Human) (i : ℕ) (veh : Vehicle)
    (baseReward : ℚ) :
    (scanAll all hs i veh baseReward).obs =
      ownBlock veh ++ (othersOf all i).flatMap (otherBlock veh) ++
        hs.flatMap (humanBlock veh) := by
  rw [scanAll, foldl_scanHuman_obs, foldl_scanOther_obs, initScan]

theorem otherBlock_length (self other : Vehicle) : (otherBlock self other).length = 8 := by
  rw [otherBlock]
  split_ifs <;> simp [Vec3.t]

theorem humanBlock_length (self : Vehicle) (h : Human) : (humanBlock self h).length = 4 := by
  rw [humanBlock]
  simp [Vec3.t]

theorem ownBlock_length (veh : Vehicle) : (ownBlock veh).length = 4 := by
  simp [ownBlock, Vec3.t]

theorem othersOf_length {vs : List Vehicle} {i : ℕ} (h : i < vs.length) :
    (othersOf vs i).length = vs.length - 1 := by
  rw [othersOf]
  simp only [List.length_append, List.length_take, List.length_drop]
  omega

/-- The full observation width of a non-offline vehicle is `obsDim`. -/
theorem scanAll_obs_length (all : List Vehicle) (hs : List Human) (i : ℕ) (veh : Vehicle)
    (baseReward : ℚ) (hi : i < all.length) :
    (scanAll all hs i veh baseReward).obs.length = obsDim all.length hs.length := by
  rw [scanAll_obs]
  simp only [List.length_append, ownBlock_length, List.length_flatMap]
  have h1 : ((othersOf all i).map (List.length ∘ otherBlock veh)).sum =
      8 * (othersOf all i).length := by
    simp only [Function.comp_def]
    rw [List.map_congr_left (fun o _ => otherBlock_length veh o)]
    simp [List.map_const', mul_comm]
  have h2 : (hs.map (List.length ∘ humanBlock veh)).sum = 4 * hs.length := by
    simp only [Function.comp_def]
    rw [List.map_congr_left (fun h _ => humanBlock_length veh h)]
    simp [List.map_const', mul_comm]
  rw [h1, h2, othersOf_length hi, obsDim]

/-! ## The `warning or crashed` short-circuit freezes the scan state -/

/-- Once `warning` is nonzero or `crashed` holds, an other-vehicle scan
step only appends the observation block. -/
theorem scanOther_frozen (self : Vehicle) (st : ScanState) (other : Vehicle)
    (h : st.warning ≠ 0 ∨ st.crashed = true) :
    scanOther self st other = { st with obs := st.obs ++ otherBlock self other } := by
  rw [scanOther]
  simp only []
  split_ifs with h1 h2 h3 h4 h5 <;> first | rfl | exact absurd h h2

/-- Once `warning` is nonzero or `crashed` holds, a human scan step only
appends the observation block. -/
theorem scanHuman_frozen (self : Vehicle) (st : ScanState) (h : Human)
    (hw : st.warning ≠ 0 ∨ st.crashed = true) :
    scanHuman self st h = { st with obs := st.obs ++ humanBlock self h } := by
  rw [scanHuman]
  simp only []
  split_ifs with h1 h2 h3 h4 <;> first | rfl | exact absurd hw h1

/-- The whole remaining other-vehicle loop is frozen after a warning or a
crash: only the observation grows. -/
theorem foldl_scanOther_frozen (self : Vehicle) (others : List Vehicle) :
    ∀ st : ScanState, st.warning ≠ 0 ∨ st.crashed = true →
      others.foldl (scanOther self) st =
        { st with obs := st.obs ++ others.flatMap (otherBlock self) } := by
  induction others with
  | nil => intro st h; simp
  | cons o os ih =>
    intro st h
    rw [List.foldl_cons, scanOther_frozen self st o h,
      ih { st with obs := st.obs ++ otherBlock self o } h]
    simp [List.append_assoc]

/-- The whole human loop is frozen after a warning or a crash. -/
theorem foldl_scanHuman_frozen (self : Vehicle) (hs : List Human) :
    ∀ st : ScanState, st.warning ≠ 0 ∨ st.crashed = true →
      hs.foldl (scanHuman self) st =
        { st with obs := st.obs ++ hs.flatMap (humanBlock self) } := by
  induction hs with
  | nil => intro st h; simp
  | cons hh hs ih =>
    intro st h
    rw [List.foldl_cons, scanHuman_frozen self st hh h,
      ih { st with obs := st.obs ++ humanBlock self hh } h]
    simp [List.append_assoc]

/-- An other-vehicle scan step that does not end crashed left the offline
mark unchanged and did not start crashed. -/
theorem scanOther_no_crash (self : Vehicle) (st : ScanState) (other : Vehicle)
    (h : (scanOther self st other).crashed = false) :
    (scanOther self st other).mark = st.mark ∧ st.crashed = false := by
  rw [scanOther] at h ⊢
  simp only [] at h ⊢
  split_ifs at h ⊢ <;> simp_all

/-- An other-vehicle loop that does not end crashed left the offline mark
unchanged and did not start crashed. -/
theorem foldl_scanOther_no_crash (self : Vehicle) (others : List Vehicle) :
    ∀ st : ScanState, (others.foldl (scanOther self) st).crashed = false →
      (others.foldl (scanOther self) st).mark = st.mark ∧ st.crashed = false := by
  induction others with
  | nil => intro st h; exact ⟨rfl, h⟩
  | cons o os ih =>
    intro st h
    rw [List.foldl_cons] at h ⊢
    obtain ⟨hmark, hcr⟩ := ih _ h
    obtain ⟨hmark', hcr'⟩ := scanOther_no_crash self st o hcr
    exact ⟨hmark.trans hmark', hcr'⟩

/-! ## Magnitudes of axis-aligned displacements -/

theorem mag_xaxis (q : ℚ) : Vec3.magnitude ⟨q, 0, 0⟩ = |(q : ℝ)| := by
  rw [Vec3.magnitude]
  push_cast
  rw [show ((q : ℝ) ^ 2 + 0 ^ 2 + 0 ^ 2) = (q : ℝ) ^ 2 by ring]
  exact Real.sqrt_sq_eq_abs _

theorem mag_x (q : ℚ) (hq : 0 ≤ q) : Vec3.magnitude ⟨q, 0, 0⟩ = (q : ℝ) := by
  rw [mag_xaxis]
  exact abs_of_nonneg (by exact_mod_cast hq)

/-! ## C7: precedence of the final per-vehicle yield -/

/-- C7: the yield of a non-offline vehicle is determined by precedence: a
crash forces `(obs, -5.0, True)`; otherwise a nonzero warning forces
`(obs, -warning, False)`; otherwise the tuple is `(obs, reward, done)` with
`done` true exactly when the `odometer >= 20` finish check fired this
tick. -/
theorem C7_yield_order (all : List Vehicle) (hs : List Human) (i : ℕ) (veh : Vehicle) (r : ℚ) :
    ((scanAll all hs i veh r).crashed = true →
       vehicleYield all hs i veh r =
         (((scanAll all hs i veh r).obs, (-5 : ℝ), true), (scanAll all hs i veh r).mark)) ∧
    ((scanAll all hs i veh r).crashed = false → (scanAll all hs i veh r).warning ≠ 0 →
       vehicleYield all hs i veh r =
         (((scanAll all hs i veh r).obs, (-((scanAll all hs i veh r).warning : ℝ) : ℝ), false),
           (scanAll all hs i veh r).mark)) ∧
    ((scanAll all hs i veh r).crashed = false → (scanAll all hs i veh r).warning = 0 →
       vehicleYield all hs i veh r =
         (((scanAll all hs i veh r).obs, (scanAll all hs i veh r).reward,
             decide (20 ≤ veh.odometer)), (scanAll all hs i veh r).mark) ∧
       ((vehicleYield all hs i veh r).1.2.2 = true ↔ 20 ≤ veh.odometer)) := by
  refine ⟨?_, ?_, ?_⟩
  · intro h1
    rw [vehicleYield]
    simp [h1]
  · intro h1 h2
    rw [vehicleYield]
    simp [h1, h2]
  · intro h1 h2
    constructor
    · rw [vehicleYield]
      simp [h1, h2]
    · rw [vehicleYield]
      simp [h1, h2]

/-- C7 witness: a finished vehicle with no other agents: the else-branch
yield `(obs, 5.0 * priority, True)` with `done` tied to the odometer. -/
theorem C7_witness :
    vehicleYield [] [] 0 vehB 2 = (([1, 0, 0, 0], (5 : ℝ), true), true) ∧
      ((vehicleYield [] [] 0 vehB 2).1.2.2 = true ↔ 20 ≤ vehB.odometer) := by
  have hc : (scanAll [] [] 0 vehB 2).crashed = false := by
    simp [scanAll, othersOf, initScan]
  have hw : (scanAll [] [] 0 vehB 2).warning = 0 := by
    simp [scanAll, othersOf, initScan]
  obtain ⟨heq, hiff⟩ := (C7_yield_order [] [] 0 vehB 2).2.2 hc hw
  refine ⟨?_, hiff⟩
  rw [heq]
  have hod : (20 : ℚ) ≤ vehB.odometer := by norm_num [vehB, vehA]
  norm_num [scanAll, othersOf, initScan, ownBlock, vehB, vehA, dirX, Vec3.t, hod]

/-! ## C10: a warning freezes the rest of the scan -/

/-- C10 (amended): once `warning` is nonzero (and no crash has occurred)
partway through a non-offline vehicle's scan of the other vehicles, no later
proximity check in the same tick can mark it crashed — even when a
later-scanned vehicle or any human lies at displacement magnitude below 1 —
and the vehicle yields `(obs, -warning, False)`.  Provided the vehicle's
odometer is below 20 it is also not marked for the late offline update (the
finish check is the one branch that can still mark it offline, which the
original claim overlooks). -/
theorem C10_warning_suppresses (all : List Vehicle) (hs : List Human) (i : ℕ) (veh : Vehicle)
    (r : ℚ) (pre post : List Vehicle)
    (hsplit : othersOf all i = pre ++ post)
    (hodo : veh.odometer < 20)
    (hw : (pre.foldl (scanOther veh) (initScan veh r)).warning ≠ 0)
    (hc : (pre.foldl (scanOther veh) (initScan veh r)).crashed = false) :
    (scanAll all hs i veh r).crashed = false ∧
    (scanAll all hs i veh r).warning = (pre.foldl (scanOther veh) (initScan veh r)).warning ∧
    vehicleYield all hs i veh r =
      (((scanAll all hs i veh r).obs,
          (-(((pre.foldl (scanOther veh) (initScan veh r)).warning : ℚ) : ℝ) : ℝ), false),
        false) := by
  set stPre := pre.foldl (scanOther veh) (initScan veh r) with hstpre
  have hfr : stPre.warning ≠ 0 ∨ stPre.crashed = true := Or.inl hw
  have hsc : scanAll all hs i veh r =
      { stPre with obs := stPre.obs ++ post.flatMap (otherBlock veh)
                            ++ hs.flatMap (humanBlock veh) } := by
    rw [scanAll, hsplit, List.foldl_append, ← hstpre,
      foldl_scanOther_frozen veh post stPre hfr,
      foldl_scanHuman_frozen veh hs
        { stPre with obs := stPre.obs ++ post.flatMap (otherBlock veh) } hfr]
  have hmark : stPre.mark = false := by
    obtain ⟨hm, -⟩ := foldl_scanOther_no_crash veh pre (initScan veh r) hc
    rw [hstpre, hm, initScan]
    simp only [decide_eq_false_iff_not, not_le]
    exact hodo
  refine ⟨by rw [hsc]; exact hc, by rw [hsc], ?_⟩
  rw [vehicleYield]
  simp only [hsc, hmark, hc, hw]
  simp [hc, hw, hmark]

/-- Helper: the crash branch of the final yield selection. -/
theorem yield_of_crash (all : List Vehicle) (hs : List Human) (i : ℕ) (veh : Vehicle) (r : ℚ)
    (h1 : (scanAll all hs i veh r).crashed = true) :
    vehicleYield all hs i veh r =
      (((scanAll all hs i veh r).obs, (-5 : ℝ), true), (scanAll all hs i veh r).mark) := by
  rw [vehicleYield]
  simp [h1]

/-- Helper: the warning branch of the final yield selection. -/
theorem yield_of_warning (all : List Vehicle) (hs : List Human) (i : ℕ) (veh : Vehicle) (r : ℚ)
    (h1 : (scanAll all hs i veh r).crashed = false)
    (h2 : (scanAll all hs i veh r).warning ≠ 0) :
    vehicleYield all hs i veh r =
      (((scanAll all hs i veh r).obs, (-((scanAll all hs i veh r).warning : ℝ) : ℝ), false),
        (scanAll all hs i veh r).mark) := by
  rw [vehicleYield]
  simp [h1, h2]

/-- Helper: the plain branch of the final yield selection. -/
theorem yield_plain (all : List Vehicle) (hs : List Human) (i : ℕ) (veh : Vehicle) (r : ℚ)
    (h1 : (scanAll all hs i veh r).crashed = false)
    (h2 : (scanAll all hs i veh r).warning = 0) :
    vehicleYield all hs i veh r =
      (((scanAll all hs i veh r).obs, (scanAll all hs i veh r).reward,
          decide (20 ≤ veh.odometer)), (scanAll all hs i veh r).mark) := by
  rw [vehicleYield]
  simp [h1, h2]

/-- The concrete pre-scan of the C10 witness: the higher-priority vehicle
two units away raises `warning = speed/v = 1/7` without crashing. -/
theorem c10_pre_scan :
    [vehC10b].foldl (scanOther vehW) (initScan vehW 3) =
      { obs := [1, 0, 0, 2, 2, 0, 0, 1, 0, 0, 0, 2], reward := (3 : ℝ), crashed := false,
        warning := 1 / 7, mark := false } := by
  have hm2 : Vec3.magnitude ⟨2, 0, 0⟩ = (2 : ℝ) := mag_x 2 (by norm_num)
  norm_num [scanOther, initScan, otherBlock, ownBlock, vehW, vehC10b, dirX, Vec3.t, hm2]

/-- C10 witness: the warning raised by `vehC10b` freezes the scan even
though `vehClose` sits half a unit away, and `vehW` (odometer 0) stays
online with the warning yield. -/
theorem C10_witness :
    (scanAll [vehW, vehC10b, vehClose] [] 0 vehW 3).crashed = false ∧
    (scanAll [vehW, vehC10b, vehClose] [] 0 vehW 3).warning =
      ([vehC10b].foldl (scanOther vehW) (initScan vehW 3)).warning ∧
    vehicleYield [vehW, vehC10b, vehClose] [] 0 vehW 3 =
      (((scanAll [vehW, vehC10b, vehClose] [] 0 vehW 3).obs,
          (-((([vehC10b].foldl (scanOther vehW) (initScan vehW 3)).warning : ℚ) : ℝ) : ℝ),
          false),
        false) :=
  C10_warning_suppresses [vehW, vehC10b, vehClose] [] 0 vehW 3 [vehC10b] [vehClose]
    (by simp [othersOf]) (by norm_num [vehW]) (by rw [c10_pre_scan]; norm_num)
    (by rw [c10_pre_scan])

/-- Phase 1 of the C10 tick: the finished vehicle cruises 0.2 at speed 2,
the other vehicle does not move. -/
theorem c10_phase1 :
    phase1 dAll 0 [vehC10a, vehC10b] [znC10, znZero] =
      some ([vehC10a', vehC10b], [1 / 5, 0]) := by
  norm_num [phase1, Vehicle.move, Zone.constraint, Zone.candidates, fdiv, keepCand,
    listMin, Constr.minc, List.filterMap, vehC10a, vehC10b, vehC10a', znC10, znZero, dAll, dirX]

/-- The finished vehicle's scan: the higher-priority vehicle two units away
raises `warning = 1/7`; the finish check already marked the index. -/
theorem c10_scan0 :
    scanAll [vehC10a', vehC10b] [] 0 vehC10a' (1 / 5) =
      { obs := [1, 0, 0, 2, 2, 0, 0, 1, 0, 0, 0, 2], reward := (5 : ℝ), crashed := false,
        warning := 1 / 7, mark := true } := by
  have hm2 : Vec3.magnitude ⟨2, 0, 0⟩ = (2 : ℝ) := mag_x 2 (by norm_num)
  norm_num [scanAll, othersOf, scanOther, initScan, otherBlock, ownBlock, vehC10a', vehC10b,
    dirX, Vec3.t, hm2]

/-- The other vehicle's scan: nothing fires. -/
theorem c10_scan1 :
    scanAll [vehC10a', vehC10b] [] 1 vehC10b 0 =
      { obs := [1, 0, 0, 0, -2, 0, 0, 1, 0, 0, 2, 1], reward := (0 : ℝ), crashed := false,
        warning := 0, mark := false } := by
  have hm2 : Vec3.magnitude ⟨-2, 0, 0⟩ = (2 : ℝ) := by rw [mag_xaxis]; norm_num
  norm_num [scanAll, othersOf, scanOther, initScan, otherBlock, ownBlock, vehC10a', vehC10b,
    dirX, Vec3.t, hm2]

/-- The C10 tick's yields: the finished-but-warned vehicle yields
`(obs, -1/7, False)` while its index is marked offline. -/
theorem c10_phase2 :
    phase2 [vehC10a', vehC10b] [] [1 / 5, 0] 0 [vehC10a', vehC10b] =
      ([([1, 0, 0, 2, 2, 0, 0, 1, 0, 0, 0, 2], -(1 / 7 : ℝ), false),
        ([1, 0, 0, 0, -2, 0, 0, 1, 0, 0, 2, 1], (0 : ℝ), false)], [0], true) := by
  have hY0 : vehicleYield [vehC10a', vehC10b] [] 0 vehC10a' (1 / 5) =
      (([1, 0, 0, 2, 2, 0, 0, 1, 0, 0, 0, 2], -(1 / 7 : ℝ), false), true) := by
    rw [yield_of_warning _ _ _ _ _ (by rw [c10_scan0]) (by rw [c10_scan0]; norm_num),
      c10_scan0]
    norm_num
  have hY1 : vehicleYield [vehC10a', vehC10b] [] 1 vehC10b 0 =
      (([1, 0, 0, 0, -2, 0, 0, 1, 0, 0, 2, 1], (0 : ℝ), false), false) := by
    rw [yield_plain _ _ _ _ _ (by rw [c10_scan1]) (by rw [c10_scan1]), c10_scan1]
    norm_num [vehC10b]
  have ho0 : vehC10a'.offline = false := rfl
  have ho1 : vehC10b.offline = false := rfl
  have hY0n := hY0
  have hY1n := hY1
  simp only [one_div] at hY0n hY1n
  simp [phase2, List.get?, ho0, ho1, hY0n, hY1n]

/-- C10 counterexample (to the claim as stated): in the `sC10` tick the
first vehicle's warning yields `(obs, -1/7, False)`, yet the vehicle does
not remain online — the `odometer >= 20` finish branch already marked it,
and after the tick its `offline` flag is true. -/
theorem C10_counterexample :
    (Scenario.stepRun sC10 [znC10, znZero] dAll dAll).map
        (fun out => ((out.yields.get? 0).map (fun y => (y.2.1, y.2.2)),
          (out.final.vehicles.get? 0).map Vehicle.offline)) =
      some (some (-(1 / 7 : ℝ), false), some true) := by
  have hv : sC10.vehicles = [vehC10a, vehC10b] := rfl
  have hh : sC10.humans = ([] : List Human) := rfl
  rw [Scenario.stepRun, hv, hh, c10_phase1]
  simp only [List.mapIdx_nil, c10_phase2, Option.map_some]
  simp [applyOffline, setOffline, List.get?]

/-! ## Characterization of phase 1 -/

/-- Everything phase 1 of `Scenario.step` does, indexwise: the vehicle list
keeps its length, one base reward is recorded per zipped (vehicle, zone)
pair, vehicles beyond the zones are untouched, and each zipped vehicle is
either skipped (offline, reward 0) or moved (reward `moved * priority`). -/
theorem phase1_spec (dirs : ℕ → Vec3) :
    ∀ (vs : List Vehicle) (i : ℕ) (zs : List Zone) (vs' : List Vehicle) (rs : List ℚ),
      phase1 dirs i vs zs = some (vs', rs) →
      vs'.length = vs.length ∧ rs.length = min vs.length zs.length ∧
      (∀ j, zs.length ≤ j → vs'.get? j = vs.get? j) ∧
      (∀ j veh, j < zs.length → vs.get? j = some veh →
        (veh.offline = true → vs'.get? j = some veh ∧ rs.get? j = some 0) ∧
        (veh.offline = false → ∃ zn veh' mv, zs.get? j = some zn ∧
          veh.move zn (dirs (i + j)) = some (veh', mv) ∧
          vs'.get? j = some veh' ∧ rs.get? j = some (mv * veh.priority))) := by
  intro vs
  induction vs with
  | nil =>
    intro i zs vs' rs h
    cases zs with
    | nil =>
      simp only [phase1, Option.some.injEq, Prod.mk.injEq] at h
      obtain ⟨h1, h2⟩ := h
      subst h1
      subst h2
      simp
    | cons zn ztl =>
      simp only [phase1, Option.some.injEq, Prod.mk.injEq] at h
      obtain ⟨h1, h2⟩ := h
      subst h1
      subst h2
      simp
  | cons veh vtl ih =>
    intro i zs vs' rs h
    cases zs with
    | nil =>
      simp only [phase1, Option.some.injEq, Prod.mk.injEq] at h
      obtain ⟨h1, h2⟩ := h
      subst h1
      subst h2
      refine ⟨rfl, by simp, fun j _ => rfl, fun j veh0 hj _ => absurd hj (by simp)⟩
    | cons zn ztl =>
      by_cases hoff : veh.offline = true
      · rw [phase1, if_pos hoff] at h
        cases hrec : phase1 dirs (i + 1) vtl ztl with
        | none => rw [hrec] at h; exact Option.noConfusion h
        | some p =>
          rw [hrec] at h
          obtain ⟨vtl', rtl⟩ := p
          simp only [Option.map_some', Option.some.injEq, Prod.mk.injEq] at h
          obtain ⟨h1, h2⟩ := h
          subst h1
          subst h2
          obtain ⟨ihlen, ihrlen, ihskip, ihj⟩ := ih (i + 1) ztl vtl' rtl hrec
          refine ⟨by simp [ihlen], by simp [ihrlen, Nat.succ_min_succ], ?_, ?_⟩
          · intro j hj
            cases j with
            | zero => simp at hj
            | succ k => simpa using ihskip k (by simpa using hj)
          · intro j veh0 hj hget
            cases j with
            | zero =>
              obtain rfl : veh0 = veh := by
                have := hget
                simp at this
                exact this.symm
              constructor
              · intro _
                exact ⟨rfl, rfl⟩
              · intro habs
                rw [habs] at hoff
                exact Bool.noConfusion hoff
            | succ k =>
              have hk : k < ztl.length := by simpa using hj
              have hget' : vtl.get? k = some veh0 := by simpa using hget
              have hcase := ihj k veh0 hk hget'
              refine ⟨fun ho => ?_, fun ho => ?_⟩
              · obtain ⟨h1, h2⟩ := hcase.1 ho
                exact ⟨by simpa using h1, by simpa using h2⟩
              · obtain ⟨zn0, veh', mv, h0, h1, h2, h3⟩ := hcase.2 ho
                refine ⟨zn0, veh', mv, by simpa using h0, ?_, by simpa using h2,
                  by simpa using h3⟩
                have harith : i + 1 + k = i + (k + 1) := by omega
                rw [← harith]
                exact h1
      · rw [phase1, if_neg hoff] at h
        cases hmv : veh.move zn (dirs i) with
        | none => rw [hmv] at h; exact Option.noConfusion h
        | some pm =>
          rw [hmv] at h
          obtain ⟨vehm, mv⟩ := pm
          cases hrec : phase1 dirs (i + 1) vtl ztl with
          | none => rw [hrec] at h; exact Option.noConfusion h
          | some p =>
            rw [hrec] at h
            obtain ⟨vtl', rtl⟩ := p
            simp only [Option.map_some', Option.some.injEq, Prod.mk.injEq] at h
            obtain ⟨h1, h2⟩ := h
            subst h1
            subst h2
            obtain ⟨ihlen, ihrlen, ihskip, ihj⟩ := ih (i + 1) ztl vtl' rtl hrec
            refine ⟨by simp [ihlen], by simp [ihrlen, Nat.succ_min_succ], ?_, ?_⟩
            · intro j hj
              cases j with
              | zero => simp at hj
              | succ k => simpa using ihskip k (by simpa using hj)
            · intro j veh0 hj hget
              cases j with
              | zero =>
                obtain rfl : veh0 = veh := by
                  have := hget
                  simp at this
                  exact this.symm
                refine ⟨fun habs => ?_, fun _ => ?_⟩
                · rw [habs] at hoff; exact absurd rfl hoff
                · refine ⟨zn, vehm, mv, rfl, ?_, rfl, rfl⟩
                  rw [Nat.add_zero]
                  exact hmv
              | succ k =>
                have hk : k < ztl.length := by simpa using hj
                have hget' : vtl.get? k = some veh0 := by simpa using hget
                have hcase := ihj k veh0 hk hget'
                refine ⟨fun ho => ?_, fun ho => ?_⟩
                · obtain ⟨h1, h2⟩ := hcase.1 ho
                  exact ⟨by simpa using h1, by simpa using h2⟩
                · obtain ⟨zn0, veh', mv', h0, h1, h2, h3⟩ := hcase.2 ho
                  refine ⟨zn0, veh', mv', by simpa using h0, ?_, by simpa using h2,
                    by simpa using h3⟩
                  have harith : i + 1 + k = i + (k + 1) := by omega
                  rw [← harith]
                  exact h1

/-! ## Characterization of phase 2 -/

theorem phase2_nil (all : List Vehicle) (hs : List Human) (rewards : List ℚ) (i : ℕ) :
    phase2 all hs rewards i [] = ([], [], true) := rfl

/-- The generator raises `IndexError` on `rewards[i]`: no yield, no marks,
abnormal finish. -/
theorem phase2_cons_none (all : List Vehicle) (hs : List Human) (rewards : List ℚ) (i : ℕ)
    (veh : Vehicle) (rest : List Vehicle) (h : rewards.get? i = none) :
    phase2 all hs rewards i (veh :: rest) = ([], [], false) := by
  rw [phase2, h]

/-- The early yield of an already-offline vehicle. -/
theorem phase2_cons_off (all : List Vehicle) (hs : List Human) (rewards : List ℚ) (i : ℕ)
    (veh : Vehicle) (rest : List Vehicle) (r : ℚ) (h : rewards.get? i = some r)
    (hoff : veh.offline = true) :
    phase2 all hs rewards i (veh :: rest) =
      ((List.replicate (obsDim all.length hs.length) (0 : ℚ), (r : ℝ), true)
          :: (phase2 all hs rewards (i + 1) rest).1,
        (phase2 all hs rewards (i + 1) rest).2.1, (phase2 all hs rewards (i + 1) rest).2.2) := by
  rw [phase2, h]
  simp only []
  rw [if_pos hoff]

/-- The yield of a live vehicle. -/
theorem phase2_cons_live (all : List Vehicle) (hs : List Human) (rewards : List ℚ) (i : ℕ)
    (veh : Vehicle) (rest : List Vehicle) (r : ℚ) (h : rewards.get? i = some r)
    (hoff : veh.offline = false) :
    phase2 all hs rewards i (veh :: rest) =
      ((vehicleYield all hs i veh r).1 :: (phase2 all hs rewards (i + 1) rest).1,
        (if (vehicleYield all hs i veh r).2 = true
          then i :: (phase2 all hs rewards (i + 1) rest).2.1
          else (phase2 all hs rewards (i + 1) rest).2.1),
        (phase2 all hs rewards (i + 1) rest).2.2) := by
  rw [phase2, h]
  simp only []
  rw [if_neg (show ¬veh.offline = true by simp [hoff])]

/-- Everything phase 2 of `Scenario.step` yields, indexwise: one tuple per
vehicle while `rewards[i]` stays in range (offline vehicles get the
zero-filled tuple, live ones their `vehicleYield`), the generator finishes
normally exactly when every vehicle had a reward entry, and the yields stop
at the first missing entry (`IndexError`). -/
theorem phase2_spec (all : List Vehicle) (hs : List Human) (rewards : List ℚ) :
    ∀ (vlist : List Vehicle) (i : ℕ),
      ((phase2 all hs rewards i vlist).1.length = min vlist.length (rewards.length - i)) ∧
      ((phase2 all hs rewards i vlist).2.2 = true ↔
        (vlist = [] ∨ i + vlist.length ≤ rewards.length)) ∧
      (∀ k y, (phase2 all hs rewards i vlist).1.get? k = some y →
        ∃ veh r, vlist.get? k = some veh ∧ rewards.get? (i + k) = some r ∧
          y = (if veh.offline = true then
                 (List.replicate (obsDim all.length hs.length) 0, (r : ℝ), true)
               else (vehicleYield all hs (i + k) veh r).1)) := by
  intro vlist
  induction vlist with
  | nil =>
    intro i
    refine ⟨by simp [phase2_nil], by simp [phase2_nil], ?_⟩
    intro k y hk
    simp [phase2_nil] at hk
  | cons veh rest ih =>
    intro i
    cases hre : rewards.get? i with
    | none =>
      have hlen : rewards.length ≤ i := List.get?_eq_none.1 hre
      rw [phase2_cons_none all hs rewards i veh rest hre]
      refine ⟨?_, ?_, ?_⟩
      · have : rewards.length - i = 0 := by omega
        simp [this]
      · simp only [List.length_cons]
        constructor
        · intro habs; exact Bool.noConfusion habs
        · intro habs
          rcases habs with habs | habs
          · exact absurd habs (by simp)
          · exfalso; omega
      · intro k y hk
        simp at hk
    | some r =>
      have hi : i < rewards.length := (List.get?_eq_some.1 hre).1
      obtain ⟨ihlen, ihok, ihget⟩ := ih (i + 1)
      have hcommon : ∀ tail : List Yld,
          (∀ k y, tail.get? k = some y →
            ∃ veh0 r0, rest.get? k = some veh0 ∧ rewards.get? (i + 1 + k) = some r0 ∧
              y = (if veh0.offline = true then
                     (List.replicate (obsDim all.length hs.length) 0, (r0 : ℝ), true)
                   else (vehicleYield all hs (i + 1 + k) veh0 r0).1)) →
          ∀ hd, (hd = (if veh.offline = true then
                   (List.replicate (obsDim all.length hs.length) 0, (r : ℝ), true)
                 else (vehicleYield all hs i veh r).1)) →
          ∀ k y, (hd :: tail).get? k = some y →
            ∃ veh0 r0, (veh :: rest).get? k = some veh0 ∧ rewards.get? (i + k) = some r0 ∧
              y = (if veh0.offline = true then
                     (List.replicate (obsDim all.length hs.length) 0, (r0 : ℝ), true)
                   else (vehicleYield all hs (i + k) veh0 r0).1) := by
        intro tail htail hd hhd k y hk
        cases k with
        | zero =>
          simp only [List.get?] at hk
          refine ⟨veh, r, rfl, by simpa using hre, ?_⟩
          have : y = hd := by injection hk with h'; exact h'.symm
          rw [this, hhd, Nat.add_zero]
        | succ k' =>
          simp only [List.get?] at hk
          obtain ⟨veh0, r0, h0, h1, h2⟩ := htail k' y hk
          have harith : i + 1 + k' = i + (k' + 1) := by omega
          exact ⟨veh0, r0, by simpa using h0, harith ▸ h1, harith ▸ h2⟩
      by_cases hoff : veh.offline = true
      · rw [phase2_cons_off all hs rewards i veh rest r hre hoff]
        refine ⟨?_, ?_, ?_⟩
        · simp only [List.length_cons, ihlen]
          omega
        · rw [ihok]
          simp only [List.length_cons]
          constructor
          · intro hmm
            rcases hmm with hmm | hmm
            · right; subst hmm; simpa using hi
            · right; omega
          · intro hmm
            rcases hmm with hmm | hmm
            · exact absurd hmm (by simp)
            · cases rest with
              | nil => left; rfl
              | cons a b => right; simp only [List.length_cons] at hmm ⊢; omega
        · exact hcommon _ ihget _ (by rw [if_pos hoff])
      · have hoff' : veh.offline = false := by revert hoff; cases veh.offline <;> simp
        rw [phase2_cons_live all hs rewards i veh rest r hre hoff']
        refine ⟨?_, ?_, ?_⟩
        · by_cases hym : (vehicleYield all hs i veh r).2 = true
          · simp only [hym, if_true, List.length_cons, ihlen]
            omega
          · simp only [hym, if_false, List.length_cons, ihlen]
            omega
        · rw [ihok]
          simp only [List.length_cons]
          constructor
          · intro hmm
            rcases hmm with hmm | hmm
            · right; subst hmm; simpa using hi
            · right; omega
          · intro hmm
            rcases hmm with hmm | hmm
            · exact absurd hmm (by simp)
            · cases rest with
              | nil => left; rfl
              | cons a b => right; simp only [List.length_cons] at hmm ⊢; omega
        · exact hcommon _ ihget _ (by rw [if_neg (by simp [hoff'])])

/-! ## The late offline update -/

theorem offline_set_idem (v : Vehicle) :
    ({ { v with offline := true } with offline := true } : Vehicle) =
      { v with offline := true } := rfl

theorem setOffline_get (vs : List Vehicle) : ∀ n j : ℕ,
    (setOffline vs n).get? j =
      if j = n then (vs.get? j).map (fun v => { v with offline := true })
      else vs.get? j := by
  induction vs with
  | nil =>
    intro n j
    cases n <;> simp [setOffline]
  | cons v vtl ih =>
    intro n j
    cases n with
    | zero =>
      cases j with
      | zero => simp [setOffline]
      | succ k => simp [setOffline]
    | succ m =>
      cases j with
      | zero => simp [setOffline]
      | succ k =>
        have hL : (setOffline (v :: vtl) (m + 1)).get? (k + 1) = (setOffline vtl m).get? k := rfl
        rw [hL, ih m k]
        by_cases h : k = m
        · rw [if_pos h, if_pos (by omega)]
          rfl
        · rw [if_neg h, if_neg (by omega)]
          rfl

theorem applyOffline_get (idxs : List ℕ) : ∀ (vs : List Vehicle) (j : ℕ),
    (applyOffline vs idxs).get? j =
      if j ∈ idxs then (vs.get? j).map (fun v => { v with offline := true })
      else vs.get? j := by
  induction idxs with
  | nil =>
    intro vs j
    simp [applyOffline]
  | cons n idxs ih =>
    intro vs j
    have h1 : applyOffline vs (n :: idxs) = applyOffline (setOffline vs n) idxs := rfl
    rw [h1, ih, setOffline_get]
    rcases hv : vs.get? j with _ | v
    · by_cases hj : j = n <;> by_cases hj2 : j ∈ idxs <;>
        simp [hj, hj2, hv]
    · by_cases hj : j = n <;> by_cases hj2 : j ∈ idxs <;>
        simp [hj, hj2, hv, offline_set_idem]

/-! ## Assorted helpers for the step-level claims -/

/-- `Vehicle.move` never touches the `offline` flag. -/
theorem move_offline {veh : Vehicle} {zn : Zone} {d : Vec3} {veh' : Vehicle} {mv : ℚ}
    (h : veh.move zn d = some (veh', mv)) : veh'.offline = veh.offline := by
  rcases hm : zn.constraint d with _ | c
  · simp only [Vehicle.move, hm] at h
    exact Option.noConfusion h
  cases c with
  | fin q =>
    rw [move_eq_fin veh zn d q hm] at h
    split_ifs at h <;>
      simp only [Option.some.injEq, Prod.mk.injEq] at h <;>
      rw [← h.1]
  | pinf =>
    rw [move_eq_pinf veh zn d hm] at h
    split_ifs at h <;>
      simp only [Option.some.injEq, Prod.mk.injEq] at h <;>
      rw [← h.1]

/-- The observation component of the final yield is always the scan
observation, whatever branch is selected. -/
theorem vehicleYield_obs (all : List Vehicle) (hs : List Human) (i : ℕ) (veh : Vehicle)
    (r : ℚ) : (vehicleYield all hs i veh r).1.1 = (scanAll all hs i veh r).obs := by
  rw [vehicleYield]
  simp only []
  split_ifs <;> rfl

theorem Vec3.sub_x (a b : Vec3) : (a - b).x = a.x - b.x := rfl

theorem Vec3.sub_y (a b : Vec3) : (a - b).y = a.y - b.y := rfl

theorem Vec3.sub_z (a b : Vec3) : (a - b).z = a.z - b.z := rfl

/-- Reversing a displacement does not change its magnitude. -/
theorem mag_sub_comm (a b : Vec3) : (a - b).magnitude = (b - a).magnitude := by
  rw [Vec3.magnitude, Vec3.magnitude]
  refine congrArg Real.sqrt ?_
  simp only [Vec3.sub_x, Vec3.sub_y, Vec3.sub_z]
  push_cast
  ring

/-- `Scenario.stepRun` unfolded over a successful phase 1. -/
theorem stepRun_eq (s : Scenario) (zones : List Zone) (vdirs hdirs : ℕ → Vec3)
    (vs' : List Vehicle) (rs : List ℚ)
    (h1 : phase1 vdirs 0 s.vehicles zones = some (vs', rs)) :
    s.stepRun zones vdirs hdirs =
      some { yields := (phase2 vs' (s.humans.mapIdx fun j h => h.move (hdirs j)) rs 0 vs').1
             ok := (phase2 vs' (s.humans.mapIdx fun j h => h.move (hdirs j)) rs 0 vs').2.2
             final :=
               { vehicles :=
                   if (phase2 vs' (s.humans.mapIdx fun j h => h.move (hdirs j)) rs 0 vs').2.2
                   then applyOffline vs'
                     (phase2 vs' (s.humans.mapIdx fun j h => h.move (hdirs j)) rs 0 vs').2.1
                   else vs'
                 humans := s.humans.mapIdx fun j h => h.move (hdirs j)
                 tick := s.tick
                 elapsed := s.elapsed + 1 } } := by
  rw [Scenario.stepRun, h1]

/-! ## C4: observation width and field order -/

/-- C4: every tuple yielded by `Scenario.step` carries an observation of
width exactly `4 + 8*(N-1) + 4*M`.  An already-offline vehicle's tuple is
the zero vector of that width with reward `rewards[i]` and done true; a live
vehicle's observation is its own block `[direction.x, direction.y,
direction.z, speed]`, then per other vehicle in list order the 8-value
`otherBlock` (8 zeros when that vehicle is offline, otherwise displacement,
direction, speed, priority), then per human the 4-value `humanBlock`
(displacement and the 0/1 `feared` flag). -/
theorem C4_obs_width (s : Scenario) (zones : List Zone) (vdirs hdirs : ℕ → Vec3)
    (out : StepOut) (h : s.stepRun zones vdirs hdirs = some out) :
    ∀ k y, out.yields.get? k = some y →
      y.1.length = 4 + 8 * (s.vehicles.length - 1) + 4 * s.humans.length ∧
      ∃ vs' rs veh r, phase1 vdirs 0 s.vehicles zones = some (vs', rs) ∧
        vs'.length = s.vehicles.length ∧ vs'.get? k = some veh ∧ rs.get? k = some r ∧
        (veh.offline = true →
          y = (List.replicate (4 + 8 * (s.vehicles.length - 1) + 4 * s.humans.length) 0,
            (r : ℝ), true)) ∧
        (veh.offline = false →
          y.1 = ownBlock veh ++ (othersOf vs' k).flatMap (otherBlock veh) ++
            (s.humans.mapIdx fun j hm => hm.move (hdirs j)).flatMap (humanBlock veh)) := by
  rcases hp : phase1 vdirs 0 s.vehicles zones with _ | p
  · rw [Scenario.stepRun, hp] at h
    exact Option.noConfusion h
  obtain ⟨vs', rs⟩ := p
  rw [stepRun_eq s zones vdirs hdirs vs' rs hp] at h
  obtain rfl : _ = out := by injection h
  intro k y hk
  obtain ⟨hlen1, hrlen1, hskip1, hidx1⟩ := phase1_spec vdirs s.vehicles 0 zones vs' rs hp
  obtain ⟨hlen2, hok2, hget2⟩ :=
    phase2_spec vs' (s.humans.mapIdx fun j hm => hm.move (hdirs j)) rs vs' 0
  obtain ⟨veh, r, hveh, hr, hy⟩ := hget2 k y hk
  rw [Nat.zero_add] at hr hy
  have hkN : k < vs'.length := (List.get?_eq_some.1 hveh).1
  have hdim : obsDim vs'.length (s.humans.mapIdx fun j hm => hm.move (hdirs j)).length =
      4 + 8 * (s.vehicles.length - 1) + 4 * s.humans.length := by
    rw [obsDim, hlen1, List.length_mapIdx]
  by_cases hoff : veh.offline = true
  · rw [if_pos hoff] at hy
    refine ⟨?_, vs', rs, veh, r, rfl, hlen1, hveh, hr, fun _ => ?_, fun habs => ?_⟩
    · rw [hy]
      simp only [List.length_replicate]
      exact hdim
    · rw [hy, hdim]
    · rw [habs] at hoff
      exact Bool.noConfusion hoff
  · rw [if_neg hoff] at hy
    have hoff' : veh.offline = false := by revert hoff; cases veh.offline <;> simp
    have hobs : y.1 = (scanAll vs' (s.humans.mapIdx fun j hm => hm.move (hdirs j)) k veh r).obs := by
      rw [hy, vehicleYield_obs]
    refine ⟨?_, vs', rs, veh, r, rfl, hlen1, hveh, hr, fun habs => ?_, fun _ => ?_⟩
    · rw [hobs, scanAll_obs_length _ _ _ _ _ hkN, hdim]
    · rw [habs] at hoff'
      exact Bool.noConfusion hoff'
    · rw [hobs, scanAll_obs]

/-- Phase 1 of the C4 fixture tick: the resting vehicle in the point zone
does not move. -/
theorem c4_phase1 : phase1 dAll 0 [vehA] [znZero] = some ([vehA], [0]) := by
  norm_num [phase1, Vehicle.move, Zone.constraint, Zone.candidates, fdiv, keepCand, listMin,
    Constr.minc, List.filterMap, vehA, znZero, dAll, dirX]

/-- The C4 fixture pedestrian ends the tick at `(5, 0, 0)`. -/
theorem c4_humans : [humanA].mapIdx (fun j h => h.move (dZ j)) =
    [⟨1, 1 / 10, ⟨5, 0, 0⟩, ⟨0, 0, 1⟩⟩] := by
  norm_num [List.mapIdx_cons, Human.move, humanA, dZ]

/-- The C4 fixture vehicle's yield: one own block and one human block. -/
theorem c4_yield :
    vehicleYield [vehA] [⟨1, 1 / 10, ⟨5, 0, 0⟩, ⟨0, 0, 1⟩⟩] 0 vehA 0 =
      (([1, 0, 0, 0, 5, 0, 0, 0], (0 : ℝ), false), false) := by
  have hm5 : Vec3.magnitude ⟨5, 0, 0⟩ = (5 : ℝ) := mag_x 5 (by norm_num)
  norm_num [vehicleYield, scanAll, othersOf, scanHuman, initScan, humanBlock, ownBlock,
    vehA, dirX, Vec3.t, hm5]

/-- The complete C4 fixture tick. -/
theorem c4_eval : sC4.stepRun [znZero] dAll dZ =
    some { yields := [([1, 0, 0, 0, 5, 0, 0, 0], (0 : ℝ), false)]
           ok := true
           final := { vehicles := [vehA], humans := [⟨1, 1 / 10, ⟨5, 0, 0⟩, ⟨0, 0, 1⟩⟩],
                      tick := 1 / 10, elapsed := 1 } } := by
  rw [stepRun_eq sC4 [znZero] dAll dZ [vehA] [0] c4_phase1]
  have hh : sC4.humans.mapIdx (fun j h => h.move (dZ j)) =
      [⟨1, 1 / 10, ⟨5, 0, 0⟩, ⟨0, 0, 1⟩⟩] := c4_humans
  rw [hh]
  have h2 : phase2 [vehA] [⟨1, 1 / 10, ⟨5, 0, 0⟩, ⟨0, 0, 1⟩⟩] [0] 0 [vehA] =
      ([([1, 0, 0, 0, 5, 0, 0, 0], (0 : ℝ), false)], [], true) := by
    rw [phase2_cons_live [vehA] [⟨1, 1 / 10, ⟨5, 0, 0⟩, ⟨0, 0, 1⟩⟩] [0] 0 vehA [] 0 rfl rfl,
      phase2_nil, c4_yield]
    rfl
  rw [h2]
  rfl

/-- C4 witness: in the one-vehicle one-human fixture tick, the single yield
has width `4 + 8·0 + 4·1 = 8` and the live-vehicle layout. -/
theorem C4_witness :
    (([1, 0, 0, 0, 5, 0, 0, 0], (0 : ℝ), false) : Yld).1.length =
      4 + 8 * (sC4.vehicles.length - 1) + 4 * sC4.humans.length ∧
    ∃ vs' rs veh r, phase1 dAll 0 sC4.vehicles [znZero] = some (vs', rs) ∧
      vs'.length = sC4.vehicles.length ∧ vs'.get? 0 = some veh ∧ rs.get? 0 = some r ∧
      (veh.offline = true →
        (([1, 0, 0, 0, 5, 0, 0, 0], (0 : ℝ), false) : Yld) =
          (List.replicate (4 + 8 * (sC4.vehicles.length - 1) + 4 * sC4.humans.length) 0,
            (r : ℝ), true)) ∧
      (veh.offline = false →
        (([1, 0, 0, 0, 5, 0, 0, 0], (0 : ℝ), false) : Yld).1 =
          ownBlock veh ++ (othersOf vs' 0).flatMap (otherBlock veh) ++
            (sC4.humans.mapIdx fun j hm => hm.move (dZ j)).flatMap (humanBlock veh)) :=
  C4_obs_width sC4 [znZero] dAll dZ _ c4_eval 0 ([1, 0, 0, 0, 5, 0, 0, 0], (0 : ℝ), false) rfl

/-! ## C5: an exhausted zone source raises, it does not skip silently -/

/-- C5 (amended): when the zone source yields fewer zones than there are
vehicles, the trailing vehicles are indeed not moved by phase 1, but the
generator does not complete without error: every phase-2 branch reads
`rewards[i]`, so the step raises `IndexError` at the first vehicle without a
reward entry.  Yields are produced only for the first `len(zones)` vehicles,
and the pending offline updates are discarded (`ok = false` means the late
update never ran and the trailing vehicles are exactly as phase 1 left
them). -/
theorem C5_truncation_raises (s : Scenario) (zones : List Zone) (vdirs hdirs : ℕ → Vec3)
    (out : StepOut) (hlt : zones.length < s.vehicles.length)
    (h : s.stepRun zones vdirs hdirs = some out) :
    out.ok = false ∧ out.yields.length = zones.length ∧
      (∀ j, zones.length ≤ j → out.final.vehicles.get? j = s.vehicles.get? j) := by
  rcases hp : phase1 vdirs 0 s.vehicles zones with _ | p
  · rw [Scenario.stepRun, hp] at h
    exact Option.noConfusion h
  obtain ⟨vs', rs⟩ := p
  rw [stepRun_eq s zones vdirs hdirs vs' rs hp] at h
  obtain rfl : _ = out := by injection h
  obtain ⟨hlen1, hrlen1, hskip1, -⟩ := phase1_spec vdirs s.vehicles 0 zones vs' rs hp
  obtain ⟨hlen2, hok2, -⟩ :=
    phase2_spec vs' (s.humans.mapIdx fun j hm => hm.move (hdirs j)) rs vs' 0
  have hrslen : rs.length = zones.length := by
    rw [hrlen1, min_eq_right (le_of_lt hlt)]
  have hvne : vs' ≠ [] := by
    intro habs
    rw [habs] at hlen1
    simp at hlen1
    omega
  have hokf : (phase2 vs' (s.humans.mapIdx fun j hm => hm.move (hdirs j)) rs 0 vs').2.2
      = false := by
    cases hb : (phase2 vs' (s.humans.mapIdx fun j hm => hm.move (hdirs j)) rs 0 vs').2.2 with
    | false => rfl
    | true =>
      rcases hok2.1 hb with habs | habs
      · exact absurd habs hvne
      · rw [Nat.zero_add, hlen1, hrslen] at habs
        omega
  refine ⟨hokf, ?_, ?_⟩
  · rw [hlen2, Nat.sub_zero, hrslen, hlen1, min_eq_right (le_of_lt hlt)]
  · intro j hj
    show (if (phase2 vs' (s.humans.mapIdx fun j hm => hm.move (hdirs j)) rs 0 vs').2.2 = true
      then applyOffline vs'
        (phase2 vs' (s.humans.mapIdx fun j hm => hm.move (hdirs j)) rs 0 vs').2.1
      else vs').get? j = s.vehicles.get? j
    rw [hokf]
    simpa using hskip1 j hj

/-- The one-vehicle, zero-zone step: no yields, `IndexError` before the
first yield. -/
theorem c5_eval : sC5.stepRun [] dAll dAll =
    some { yields := [], ok := false,
           final := { vehicles := [vehA], humans := [], tick := 1 / 10, elapsed := 1 } } := by
  rw [stepRun_eq sC5 [] dAll dAll [vehA] [] rfl]
  have hh : List.mapIdx (fun j h => h.move (dAll j)) sC5.humans = ([] : List Human) := rfl
  rw [hh, phase2_cons_none [vehA] [] [] 0 vehA [] rfl]
  rfl

/-- C5 counterexample (to the claim as stated): with one vehicle and an
empty zone source the step does not complete without error — it raises
(`ok = false`) and produces no yields at all. -/
theorem C5_counterexample :
    ([] : List Zone).length < sC5.vehicles.length ∧
    (sC5.stepRun [] dAll dAll).map StepOut.ok = some false ∧
    (sC5.stepRun [] dAll dAll).map (fun o => o.yields.length) = some 0 := by
  refine ⟨by simp [sC5], ?_, ?_⟩
  · rw [c5_eval]
    rfl
  · rw [c5_eval]
    rfl

/-- C5 witness: the amended claim at the concrete one-vehicle, zero-zone
step. -/
theorem C5_witness :
    ({ yields := [], ok := false,
       final := { vehicles := [vehA], humans := [], tick := 1 / 10, elapsed := 1 } }
      : StepOut).ok = false ∧
    ({ yields := [], ok := false,
       final := { vehicles := [vehA], humans := [], tick := 1 / 10, elapsed := 1 } }
      : StepOut).yields.length = ([] : List Zone).length ∧
    (∀ j, ([] : List Zone).length ≤ j →
      ({ yields := [], ok := false,
         final := { vehicles := [vehA], humans := [], tick := 1 / 10, elapsed := 1 } }
        : StepOut).final.vehicles.get? j = sC5.vehicles.get? j) :=
  C5_truncation_raises sC5 [] dAll dAll _ (by simp [sC5]) c5_eval

/-! ## C6: offline is permanent and fully masking -/

/-- C6: a vehicle that is already offline when `Scenario.step` begins (and
is covered by the zone source) yields exactly the zero observation of the
full width with reward `0.0` and done true; after the step it is byte-for-
byte the same vehicle — position untouched, `offline` still true — so the
property propagates to every later tick; and the 8-value block any live
vehicle appends for it is the zero fill, never its frozen position
(`scanOther` appends exactly `otherBlock`, see `scanOther_obs`). -/
theorem C6_offline_permanent (s : Scenario) (zones : List Zone) (vdirs hdirs : ℕ → Vec3)
    (out : StepOut) (i : ℕ) (veh : Vehicle)
    (hi : s.vehicles.get? i = some veh) (hoff : veh.offline = true)
    (hz : i < zones.length)
    (h : s.stepRun zones vdirs hdirs = some out) :
    out.yields.get? i =
      some (List.replicate (4 + 8 * (s.vehicles.length - 1) + 4 * s.humans.length) 0,
        (0 : ℝ), true) ∧
    out.final.vehicles.get? i = some veh ∧
    (∀ u : Vehicle, otherBlock u veh = List.replicate 8 0) := by
  have hfix : ({ veh with offline := true } : Vehicle) = veh := by
    cases veh
    simp only [] at hoff
    simp [hoff]
  rcases hp : phase1 vdirs 0 s.vehicles zones with _ | p
  · rw [Scenario.stepRun, hp] at h
    exact Option.noConfusion h
  obtain ⟨vs', rs⟩ := p
  rw [stepRun_eq s zones vdirs hdirs vs' rs hp] at h
  obtain rfl : _ = out := by injection h
  obtain ⟨hlen1, hrlen1, hskip1, hidx1⟩ := phase1_spec vdirs s.vehicles 0 zones vs' rs hp
  obtain ⟨hlen2, hok2, hget2⟩ :=
    phase2_spec vs' (s.humans.mapIdx fun j hm => hm.move (hdirs j)) rs vs' 0
  have hiN : i < s.vehicles.length := (List.get?_eq_some.1 hi).1
  obtain ⟨hv', hr'⟩ := (hidx1 i veh hz hi).1 hoff
  have hirs : i < rs.length := by
    rw [hrlen1]
    omega
  have hdim : obsDim vs'.length (s.humans.mapIdx fun j hm => hm.move (hdirs j)).length =
      4 + 8 * (s.vehicles.length - 1) + 4 * s.humans.length := by
    rw [obsDim, hlen1, List.length_mapIdx]
  refine ⟨?_, ?_, fun u => by rw [otherBlock, if_pos hoff]⟩
  · cases hy : (phase2 vs' (s.humans.mapIdx fun j hm => hm.move (hdirs j)) rs 0 vs').1.get? i with
    | none =>
      have := List.get?_eq_none.1 hy
      rw [hlen2, Nat.sub_zero, hlen1] at this
      exfalso
      omega
    | some y =>
      obtain ⟨veh0, r0, hveh0, hr0, hyy⟩ := hget2 i y hy
      rw [Nat.zero_add] at hr0
      obtain rfl : veh0 = veh := by
        rw [hv'] at hveh0
        injection hveh0 with h'
        exact h'.symm
      obtain rfl : r0 = 0 := by
        rw [hr'] at hr0
        injection hr0 with h'
        exact h'.symm
      rw [if_pos hoff] at hyy
      rw [hyy, hdim]
      norm_num
  · show (if (phase2 vs' (s.humans.mapIdx fun j hm => hm.move (hdirs j)) rs 0 vs').2.2 = true
      then applyOffline vs'
        (phase2 vs' (s.humans.mapIdx fun j hm => hm.move (hdirs j)) rs 0 vs').2.1
      else vs').get? i = some veh
    by_cases hb : (phase2 vs' (s.humans.mapIdx fun j hm => hm.move (hdirs j)) rs 0 vs').2.2 = true
    · rw [if_pos hb, applyOffline_get]
      by_cases hmem : i ∈ (phase2 vs' (s.humans.mapIdx fun j hm => hm.move (hdirs j)) rs 0 vs').2.1
      · rw [if_pos hmem, hv']
        simp [hfix]
      · rw [if_neg hmem, hv']
    · rw [if_neg hb, hv']

/-- Phase 1 of the C6 fixture tick: the offline vehicle is skipped with
reward 0, the far vehicle stays put. -/
theorem c6_phase1 : phase1 dAll 0 [vehOff, vehFar] [znZero, znZero] =
    some ([vehOff, vehFar], [0, 0]) := by
  norm_num [phase1, Vehicle.move, Zone.constraint, Zone.candidates, fdiv, keepCand, listMin,
    Constr.minc, List.filterMap, vehOff, vehFar, znZero, dAll, dirX]

/-- The far vehicle's yield: the offline vehicle contributes the 8-zero
fill. -/
theorem c6_yield : vehicleYield [vehOff, vehFar] [] 1 vehFar 0 =
    (([1, 0, 0, 0, 0, 0, 0, 0, 0, 0, 0, 0], (0 : ℝ), false), false) := by
  norm_num [vehicleYield, scanAll, othersOf, scanOther, initScan, otherBlock, ownBlock,
    vehOff, vehFar, dirX, Vec3.t, List.replicate]

/-- The C6 fixture tick's phase 2. -/
theorem c6_phase2 : phase2 [vehOff, vehFar] [] [0, 0] 0 [vehOff, vehFar] =
    ([(List.replicate 12 (0 : ℚ), (0 : ℝ), true),
      ([1, 0, 0, 0, 0, 0, 0, 0, 0, 0, 0, 0], (0 : ℝ), false)], [], true) := by
  rw [phase2_cons_off [vehOff, vehFar] [] [0, 0] 0 vehOff [vehFar] 0 rfl rfl,
    phase2_cons_live [vehOff, vehFar] [] [0, 0] 1 vehFar [] 0 rfl rfl, phase2_nil, c6_yield]
  norm_num [obsDim]

/-- The complete C6 fixture tick. -/
theorem c6_eval : sC6.stepRun [znZero, znZero] dAll dAll =
    some { yields := [(List.replicate 12 (0 : ℚ), (0 : ℝ), true),
             ([1, 0, 0, 0, 0, 0, 0, 0, 0, 0, 0, 0], (0 : ℝ), false)]
           ok := true
           final := { vehicles := [vehOff, vehFar], humans := [], tick := 1 / 10,
                      elapsed := 1 } } := by
  rw [stepRun_eq sC6 [znZero, znZero] dAll dAll [vehOff, vehFar] [0, 0] c6_phase1]
  have hh : List.mapIdx (fun j h => h.move (dAll j)) sC6.humans = ([] : List Human) := rfl
  rw [hh, c6_phase2]
  rfl

/-- C6 witness: in the `sC6` tick the offline vehicle yields the 12-wide
zero tuple with reward 0 and done true, survives the tick unchanged, and
every vehicle's block for it is the 8-zero fill. -/
theorem C6_witness :
    ({ yields := [(List.replicate 12 (0 : ℚ), (0 : ℝ), true),
         ([1, 0, 0, 0, 0, 0, 0, 0, 0, 0, 0, 0], (0 : ℝ), false)]
       ok := true
       final := { vehicles := [vehOff, vehFar], humans := [], tick := 1 / 10, elapsed := 1 } }
       : StepOut).yields.get? 0 =
      some (List.replicate (4 + 8 * (sC6.vehicles.length - 1) + 4 * sC6.humans.length) 0,
        (0 : ℝ), true) ∧
    ({ yields := [(List.replicate 12 (0 : ℚ), (0 : ℝ), true),
         ([1, 0, 0, 0, 0, 0, 0, 0, 0, 0, 0, 0], (0 : ℝ), false)]
       ok := true
       final := { vehicles := [vehOff, vehFar], humans := [], tick := 1 / 10, elapsed := 1 } }
       : StepOut).final.vehicles.get? 0 = some vehOff ∧
    (∀ u : Vehicle, otherBlock u vehOff = List.replicate 8 0) :=
  C6_offline_permanent sC6 [znZero, znZero] dAll dAll _ 0 vehOff rfl rfl (by norm_num) c6_eval

/-! ## C8: two vehicles within a unit of each other crash together -/

/-- One other-vehicle scan step onto a live vehicle closer than 1 sets
`crashed` and the offline mark. -/
theorem scanOther_crash (self : Vehicle) (st : ScanState) (other : Vehicle)
    (hoff : other.offline = false) (hw : st.warning = 0) (hc : st.crashed = false)
    (hd : (other.position - self.position).magnitude < 1) :
    scanOther self st other =
      { obs := st.obs ++ otherBlock self other, reward := st.reward, crashed := true,
        warning := st.warning, mark := true } := by
  rw [scanOther]
  simp only []
  rw [if_neg (show ¬other.offline = true by simp [hoff]),
    if_neg (show ¬(st.warning ≠ 0 ∨ st.crashed = true) by simp [hw, hc]),
    if_pos hd]

/-- C8: a two-vehicle scenario whose vehicles end phase 1 less than one
unit apart: both yield `(obs, -5.0, True)` this tick, both are flagged
offline by the late update afterwards, and each vehicle's observation still
carries the other's live 8-value block (displacement, direction, speed,
priority) — the deferred offline update means neither sees the other as
offline during the tick. -/
theorem C8_mutual_crash (s : Scenario) (z0 z1 : Zone) (vdirs hdirs : ℕ → Vec3)
    (u0 u1 w0 w1 : Vehicle) (m0 m1 : ℚ)
    (hveh : s.vehicles = [u0, u1])
    (hu0 : u0.offline = false) (hu1 : u1.offline = false)
    (hmv0 : u0.move z0 (vdirs 0) = some (w0, m0))
    (hmv1 : u1.move z1 (vdirs 1) = some (w1, m1))
    (hdist : (w1.position - w0.position).magnitude < 1) :
    ∃ out, s.stepRun [z0, z1] vdirs hdirs = some out ∧
      out.ok = true ∧
      out.yields =
        [(ownBlock w0 ++ ((w1.position - w0.position).t ++ w1.direction.t ++
            [w1.speed, w1.priority]) ++
            (s.humans.mapIdx fun j hm => hm.move (hdirs j)).flatMap (humanBlock w0),
          (-5 : ℝ), true),
         (ownBlock w1 ++ ((w0.position - w1.position).t ++ w0.direction.t ++
            [w0.speed, w0.priority]) ++
            (s.humans.mapIdx fun j hm => hm.move (hdirs j)).flatMap (humanBlock w1),
          (-5 : ℝ), true)] ∧
      out.final.vehicles = [{ w0 with offline := true }, { w1 with offline := true }] := by
  have hw0 : w0.offline = false := (move_offline hmv0).trans hu0
  have hw1 : w1.offline = false := (move_offline hmv1).trans hu1
  have hdist' : (w0.position - w1.position).magnitude < 1 := by
    rw [mag_sub_comm]
    exact hdist
  have hob0 : otherBlock w0 w1 =
      (w1.position - w0.position).t ++ w1.direction.t ++ [w1.speed, w1.priority] := by
    rw [otherBlock, if_neg (by simp [hw1])]
  have hob1 : otherBlock w1 w0 =
      (w0.position - w1.position).t ++ w0.direction.t ++ [w0.speed, w0.priority] := by
    rw [otherBlock, if_neg (by simp [hw0])]
  have hphase1 : phase1 vdirs 0 s.vehicles [z0, z1] =
      some ([w0, w1], [m0 * u0.priority, m1 * u1.priority]) := by
    rw [hveh]
    simp [phase1, hu0, hu1, hmv0, hmv1]
  set hsM := s.humans.mapIdx fun j hm => hm.move (hdirs j) with hhsM
  have hscA0 : scanAll [w0, w1] hsM 0 w0 (m0 * u0.priority) =
      { obs := ownBlock w0 ++ otherBlock w0 w1 ++ hsM.flatMap (humanBlock w0),
        reward := (initScan w0 (m0 * u0.priority)).reward, crashed := true, warning := 0,
        mark := true } := by
    rw [scanAll]
    rw [show othersOf [w0, w1] 0 = [w1] from rfl]
    rw [show List.foldl (scanOther w0) (initScan w0 (m0 * u0.priority)) [w1] =
      scanOther w0 (initScan w0 (m0 * u0.priority)) w1 from rfl]
    rw [scanOther_crash w0 (initScan w0 (m0 * u0.priority)) w1 hw1 rfl rfl hdist]
    rw [foldl_scanHuman_frozen w0 hsM _ (Or.inr rfl)]
    rfl
  have hscA1 : scanAll [w0, w1] hsM 1 w1 (m1 * u1.priority) =
      { obs := ownBlock w1 ++ otherBlock w1 w0 ++ hsM.flatMap (humanBlock w1),
        reward := (initScan w1 (m1 * u1.priority)).reward, crashed := true, warning := 0,
        mark := true } := by
    rw [scanAll]
    rw [show othersOf [w0, w1] 1 = [w0] from rfl]
    rw [show List.foldl (scanOther w1) (initScan w1 (m1 * u1.priority)) [w0] =
      scanOther w1 (initScan w1 (m1 * u1.priority)) w0 from rfl]
    rw [scanOther_crash w1 (initScan w1 (m1 * u1.priority)) w0 hw0 rfl rfl hdist']
    rw [foldl_scanHuman_frozen w1 hsM _ (Or.inr rfl)]
    rfl
  have hY0 : vehicleYield [w0, w1] hsM 0 w0 (m0 * u0.priority) =
      ((ownBlock w0 ++ otherBlock w0 w1 ++ hsM.flatMap (humanBlock w0), (-5 : ℝ), true),
        true) := by
    rw [yield_of_crash _ _ _ _ _ (by rw [hscA0]), hscA0]
  have hY1 : vehicleYield [w0, w1] hsM 1 w1 (m1 * u1.priority) =
      ((ownBlock w1 ++ otherBlock w1 w0 ++ hsM.flatMap (humanBlock w1), (-5 : ℝ), true),
        true) := by
    rw [yield_of_crash _ _ _ _ _ (by rw [hscA1]), hscA1]
  have hp2 : phase2 [w0, w1] hsM [m0 * u0.priority, m1 * u1.priority] 0 [w0, w1] =
      ([(ownBlock w0 ++ otherBlock w0 w1 ++ hsM.flatMap (humanBlock w0), (-5 : ℝ), true),
        (ownBlock w1 ++ otherBlock w1 w0 ++ hsM.flatMap (humanBlock w1), (-5 : ℝ), true)],
        [0, 1], true) := by
    rw [phase2_cons_live [w0, w1] hsM [m0 * u0.priority, m1 * u1.priority] 0 w0 [w1]
        (m0 * u0.priority) rfl hw0,
      phase2_cons_live [w0, w1] hsM [m0 * u0.priority, m1 * u1.priority] 1 w1 []
        (m1 * u1.priority) rfl hw1,
      phase2_nil, hY0, hY1]
    rfl
  refine ⟨_, stepRun_eq s [z0, z1] vdirs hdirs [w0, w1] [m0 * u0.priority, m1 * u1.priority]
    hphase1, ?_, ?_, ?_⟩
  · show (phase2 [w0, w1] hsM [m0 * u0.priority, m1 * u1.priority] 0 [w0, w1]).2.2 = true
    rw [hp2]
  · show (phase2 [w0, w1] hsM [m0 * u0.priority, m1 * u1.priority] 0 [w0, w1]).1 = _
    rw [hp2, hob0, hob1]
  · show (if (phase2 [w0, w1] hsM [m0 * u0.priority, m1 * u1.priority] 0 [w0, w1]).2.2 = true
      then applyOffline [w0, w1]
        (phase2 [w0, w1] hsM [m0 * u0.priority, m1 * u1.priority] 0 [w0, w1]).2.1
      else [w0, w1]) = _
    rw [hp2]
    rfl

/-- The fixture vehicles do not move in the point zone. -/
theorem c8_move0 : vehA.move znZero (dAll 0) = some (vehA, 0) := by
  norm_num [vehA, znZero, dAll, dirX, Vehicle.move, Zone.constraint, Zone.candidates, fdiv,
    keepCand, listMin, Constr.minc, List.filterMap]

theorem c8_move1 : vehHalf.move znZero (dAll 1) = some (vehHalf, 0) := by
  norm_num [vehHalf, znZero, dAll, dirX, Vehicle.move, Zone.constraint, Zone.candidates, fdiv,
    keepCand, listMin, Constr.minc, List.filterMap]

/-- C8 witness: the two fixture vehicles half a unit apart both crash in
one step. -/
theorem C8_witness :
    ∃ out, sC8.stepRun [znZero, znZero] dAll dAll = some out ∧
      out.ok = true ∧
      out.yields =
        [(ownBlock vehA ++ ((vehHalf.position - vehA.position).t ++ vehHalf.direction.t ++
            [vehHalf.speed, vehHalf.priority]) ++
            (sC8.humans.mapIdx fun j hm => hm.move (dAll j)).flatMap (humanBlock vehA),
          (-5 : ℝ), true),
         (ownBlock vehHalf ++ ((vehA.position - vehHalf.position).t ++ vehA.direction.t ++
            [vehA.speed, vehA.priority]) ++
            (sC8.humans.mapIdx fun j hm => hm.move (dAll j)).flatMap (humanBlock vehHalf),
          (-5 : ℝ), true)] ∧
      out.final.vehicles = [{ vehA with offline := true }, { vehHalf with offline := true }] := by
  refine C8_mutual_crash sC8 znZero znZero dAll dAll vehA vehHalf vehA vehHalf 0 0 rfl rfl rfl
    c8_move0 c8_move1 ?_
  have hsub : vehHalf.position - vehA.position = (⟨1 / 2, 0, 0⟩ : Vec3) := by
    norm_num [vehHalf, vehA]
  rw [hsub, mag_x (1 / 2) (by norm_num)]
  norm_num
